import Mathlib

/-! Verification development for the promise-cpp core engine, a shallow
embedding of src/include/promise-cpp/promise_inl.hpp in its single-threaded
build (PROMISE_MULTITHREAD off).  Promise holders, tasks and shared-promise
indirections live in a world state keyed by numeric identities; the engine
loop `call`, the holder fusion `join`, task attachment `then`, the settlement
capabilities of `Defer`, `Promise::finally` and the `all` combinator are
translated operation by operation.  The interpreter is fuel-indexed so that
nested settlement (a continuation that creates and settles a fresh promise
while the engine runs) stays total. -/

namespace PromiseCpp


/-- Settlement states (`TaskState` as used throughout promise_inl.hpp):
both tasks and holders carry one; everything starts `kPending`. -/
inductive TaskState
| kPending
| kResolved
| kRejected
deriving DecidableEq, Repr

/-- Type-erased payload (the external `any` container).  Only the structure
the engine itself inspects is modelled: emptiness, the nullptr marker, a
Promise-typed value (recognised by the `type_id<Promise>` comparison), an
exception payload captured by `std::current_exception` (flagged when the
thrown object is a `promise::bad_any_cast`), and plain data carriers. -/
inductive AnyVal
| vEmpty
| vNull
| vInt (n : Int)
| vVec (xs : List AnyVal)
| vExc (badCast : Bool) (payload : AnyVal)
| vPromise (sp : Nat)

/-- The `value.type() == type_id<Promise>()` test in the engine
(promise_inl.hpp 296 and 351). -/
def AnyVal.isPromise : AnyVal → Bool
| .vPromise _ => true
| _ => false

/-- `Defer` (promise_inl.hpp 402-411): a strong reference to one task plus a
SharedPromise freshly created in the constructor to point at the task's holder
at that moment.  That SharedPromise is not pushed onto the holder's owner
list, so `join` never retargets it. -/
structure DeferT where
  task : Nat
  sharedPromise : Nat
deriving DecidableEq, Repr

/-- Behaviour of a user callback handed to `Promise::finally`: it returns
normally, throws the type-mismatch error while its argument is bound, or
throws some other error. -/
inductive CbBeh
| cbOk
| cbBadCast
| cbThrow (e : AnyVal)

/-- Continuations are stored as type-erased callables (`any` holding a
callable).  The constructors enumerate the behaviours the engine
distinguishes: emptiness / nullptr (the pass-through tests at
promise_inl.hpp 258-259 and 310-311), returning a constant, returning the
argument, failing argument binding with `bad_any_cast`, throwing another
error, returning an existing Promise handle, the two closures built by
`Promise::finally` (promise_inl.hpp 689-707), and the two closures `all`
attaches per input promise (promise_inl.hpp 850-864). -/
inductive Callable
| cEmpty
| cNullPtr
| cConst (v : AnyVal)
| cIdent
| cBadCast
| cThrow (e : AnyVal)
| cRetPromise (sp : Nat)
| cFinallyRes (cb : CbBeh)
| cFinallyRej (cb : CbBeh)
| cAllRes (cell idx : Nat) (d : DeferT)
| cAllRej (d : DeferT)

/-- The guard `onResolved_.empty() || onResolved_.type() == type_id<std::nullptr_t>()`
(promise_inl.hpp 258-259, and symmetrically 310-311). -/
def Callable.isEmptyOrNull : Callable → Bool
| .cEmpty => true
| .cNullPtr => true
| _ => false

/-- One continuation record (`struct Task`): state, weak back-reference to
its holder (holders are never deallocated in the model, so the weak pointer
is a plain identity), registration site, and the two callables. -/
structure Task where
  state : TaskState
  promiseHolder : Nat
  loc : Nat
  onResolved : Callable
  onRejected : Callable

/-- One call-trace entry (`CallRecord`): the source location token and the
global serial number.  The wall-clock timestamp is dropped; no claim
mentions it. -/
structure CallRecord where
  loc : Nat
  serialNo : Nat
deriving DecidableEq, Repr

/-- The settlement cell (`struct PromiseHolder`): owner back-references
(weak pointers to SharedPromise indirections), the FIFO task queue, the
settlement state and value, and the bounded call trace. -/
structure PromiseHolder where
  owners : List Nat
  pendingTasks : List Nat
  state : TaskState
  value : AnyVal
  callStack : List CallRecord

/-- The indirection a Promise handle goes through (`struct SharedPromise`),
so that `join` can retarget every handle of a holder at once. -/
structure SharedPromise where
  promiseHolder : Nat
deriving DecidableEq, Repr

/-- Shared state of one `all` combinator instance: the `finished` counter,
the input count and the result slots (promise_inl.hpp 845-848). -/
structure AllCell where
  finished : Nat
  size : Nat
  retArr : List AnyVal

/-- The whole object graph: holders, tasks, shared-promise indirections and
`all` cells keyed by identity, a fresh-identity counter, and the global
`callSerialNo` counter (promise_inl.hpp 186-189). -/
structure World where
  holders : Nat → Option PromiseHolder
  tasks : Nat → Option Task
  sps : Nat → Option SharedPromise
  cells : Nat → Option AllCell
  nextId : Nat
  serial : Nat

def emptyWorld : World :=
  ⟨fun _ => none, fun _ => none, fun _ => none, fun _ => none, 0, 0⟩

def World.setHolder (W : World) (i : Nat) (ph : PromiseHolder) : World :=
  { W with holders := Function.update W.holders i (some ph) }

def World.modifyHolder (W : World) (i : Nat) (f : PromiseHolder → PromiseHolder) : World :=
  match W.holders i with
  | some ph => W.setHolder i (f ph)
  | none => W

def World.setTask (W : World) (i : Nat) (t : Task) : World :=
  { W with tasks := Function.update W.tasks i (some t) }

def World.setSp (W : World) (i : Nat) (sp : SharedPromise) : World :=
  { W with sps := Function.update W.sps i (some sp) }

def World.setCell (W : World) (i : Nat) (c : AllCell) : World :=
  { W with cells := Function.update W.cells i (some c) }

/-- The pending-task queue of a holder (empty when the holder id is dead). -/
def World.holderTasks (W : World) (i : Nat) : List Nat :=
  (W.holders i).elim [] PromiseHolder.pendingTasks

/-- The settlement state of a holder (dead ids read as `kPending`). -/
def World.holderState (W : World) (i : Nat) : TaskState :=
  (W.holders i).elim .kPending PromiseHolder.state

/-- The settlement value of a holder. -/
def World.holderValue (W : World) (i : Nat) : AnyVal :=
  (W.holders i).elim .vEmpty PromiseHolder.value

/-- The call trace of a holder. -/
def World.holderStack (W : World) (i : Nat) : List CallRecord :=
  (W.holders i).elim [] PromiseHolder.callStack

/-- The owner list of a holder. -/
def World.holderOwners (W : World) (i : Nat) : List Nat :=
  (W.holders i).elim [] PromiseHolder.owners

/-- State of the holder a Promise handle currently designates, read through
its SharedPromise indirection. -/
def World.spState (W : World) (spId : Nat) : TaskState :=
  (W.sps spId).elim .kPending (fun sp => W.holderState sp.promiseHolder)

/-- Value of the holder a Promise handle currently designates. -/
def World.spValue (W : World) (spId : Nat) : AnyVal :=
  (W.sps spId).elim .vEmpty (fun sp => W.holderValue sp.promiseHolder)

/-- Pending queue of the holder a Promise handle currently designates. -/
def World.spTasks (W : World) (spId : Nat) : List Nat :=
  (W.sps spId).elim [] (fun sp => W.holderTasks sp.promiseHolder)

/-- Modelled from the spec: the trace capacity `PM_MAX_LOC` is a configuration
constant defined in promise.hpp, which is not under src/ ("`callStack` : Call
Trace, capacity PM_MAX_LOC; oldest entries are evicted").  The spec fixes no
numeric value; 4 is used here, and every theorem about the trace only relies
on the trimming discipline, not on the particular number. -/
def PM_MAX_LOC : Nat := 4

/-- The trim loop `while (callStack_.size() > PM_MAX_LOC) pop_front()`
(promise_inl.hpp 251). -/
def trimStack (s : List CallRecord) : List CallRecord :=
  if s.length ≤ PM_MAX_LOC then s
  else match s with
    | [] => []
    | _ :: rest => trimStack rest
termination_by structural s

/-- The retarget loop of `join` (promise_inl.hpp 144-146): every task pending
on the right holder gets its weak back-reference rewritten to the left
holder. -/
def retargetTasks (l : Nat) (W : World) : List Nat → World
| [] => W
| t :: ts =>
  retargetTasks l
    (match W.tasks t with
     | some tk => W.setTask t { tk with promiseHolder := l }
     | none => W) ts

/-- The owner rewrite loop of `join` (promise_inl.hpp 161-170): each live
owner of the right holder is atomically retargeted to the left holder and
appended to the left holder's owner list.  All weak references are live in
the model (SharedPromise objects are never deallocated). -/
def retargetOwners (l : Nat) (W : World) : List Nat → World
| [] => W
| spId :: os =>
  retargetOwners l
    (match W.sps spId with
     | some _ => (W.setSp spId ⟨l⟩).modifyHolder l
         (fun h => { h with owners := h.owners ++ [spId] })
     | none => W) os

/-- The queue part of `join` (promise_inl.hpp 144-147): retarget the right
holder's pending tasks to the left holder, then splice the right queue onto
the end of the left queue.  When both arguments alias the same holder the
C++ splice is a self-splice, which moves the whole content in front of the
sentinel it already ends at and so leaves the list unchanged; the aliasing
guard reproduces that. -/
def joinTasks (W : World) (l r : Nat) : World :=
  let rq := W.holderTasks r
  let W1 := retargetTasks l W rq
  if l = r then W1 else
    (W1.modifyHolder l (fun h => { h with pendingTasks := h.pendingTasks ++ rq })).modifyHolder r
      (fun h => { h with pendingTasks := [] })

/-- The trace part of `join` (promise_inl.hpp 148): splice the right holder's
call trace in front of the left holder's (no trimming happens here).  As
above, a self-splice leaves the trace unchanged. -/
def joinStacks (W : World) (l r : Nat) : World :=
  if l = r then W else
    let rs := W.holderStack r
    (W.modifyHolder l (fun h => { h with callStack := rs ++ h.callStack })).modifyHolder r
      (fun h => { h with callStack := [] })

/-- The shell part of `join` (promise_inl.hpp 150-155): move the right
holder's owner list out (returned alongside the world) and force the right
holder's state to `kResolved`, so that the dying holder will not invoke the
uncaught-rejection sink from its destructor. -/
def joinShell (W : World) (r : Nat) : World × List Nat :=
  let ow := W.holderOwners r
  let W1 := W.modifyHolder r (fun h => { h with owners := [] })
  (W1.modifyHolder r (fun h => { h with state := .kResolved }), ow)

/-- `join(left, right)` (promise_inl.hpp 138-179), fusing the right holder
into the left one: tasks, traces, then the shell step, and finally the
owner-retargeting loop over the moved owner list. -/
def joinM (W : World) (l r : Nat) : World :=
  if (W.holders l).isNone ∨ (W.holders r).isNone then W else
  let W1 := joinTasks W l r
  let W2 := joinStacks W1 l r
  let p := joinShell W2 r
  retargetOwners l p.1 p.2

/-- Outcome of invoking a continuation callable: a returned value, a thrown
`promise::bad_any_cast`, or some other thrown payload. -/
inductive EvOut
| ret (v : AnyVal)
| throwBadCast
| throwOther (e : AnyVal)

/-- Behaviour of the body passed to `newPromise(loc, run)`: do nothing (the
caller keeps the deferred for later), settle the deferred immediately, throw
(converted to a rejection by the catch in `newPromise`,
promise_inl.hpp 782-784), or attach the `all` continuations to every input
promise (promise_inl.hpp 850-864). -/
inductive RunBeh
| rb_nothing
| rb_resolve (v : AnyVal)
| rb_reject (v : AnyVal)
| rb_throw (e : AnyVal)
| rb_allAttach (ps : List Nat) (cell : Nat)

/-- Common tail of the two engine branches once the continuation returned
value `v` (promise_inl.hpp 296-305 and 351-360): if `v` is a Promise, `join`
its holder with the current holder and adopt the former as the new current
holder; otherwise the current holder settles Resolved with value `v`. -/
def settleOrJoin (W : World) (hid : Nat) (v : AnyVal) : World × Nat :=
  match v with
  | .vPromise spId =>
    match W.sps spId with
    | some sp => (joinM W sp.promiseHolder hid, sp.promiseHolder)
    | none => (W, hid)
  | v => (W.modifyHolder hid (fun h => { h with value := v, state := .kResolved }), hid)

/-- Requests into the fuel-indexed engine recursion: one constructor per
recursive engine operation.  The functions `callM`, `evalCb`, `newPromiseM`,
`thenCbM`, `deferResolveM`, `deferRejectM` and `attachAllM` below are thin
wrappers that give the branches their source names; the equation lemmas
after them restate each branch in its direct recursive form. -/
inductive EngineReq
| reqCall (loc taskId : Nat)
| reqEval (c : Callable) (arg : AnyVal) (loc : Nat)
| reqNewPromise (loc : Nat) (rb : RunBeh)
| reqThen (spId loc : Nat) (onRes onRej : Callable)
| reqDeferResolve (d : DeferT) (loc : Nat) (arg : AnyVal)
| reqDeferReject (d : DeferT) (loc : Nat) (arg : AnyVal)
| reqAttachAll (loc : Nat) (ps : List Nat) (idx cell : Nat) (d : DeferT)

/-- Results of engine requests, matching the request constructors. -/
inductive EngineOut
| outTrace (tr : List Nat)
| outEval (o : EvOut)
| outPromise (sp : Nat) (d : DeferT)
| outTask (tid : Nat)
| outUnit

/-- Invocation of a continuation callable that performs no engine work of
its own: every case except the `finally` and `all` closures, which need the
engine and are handled in `engineStep`; at exhausted fuel those closures
fall back to an empty result.  The empty and nullptr cases are unreachable,
since both engine branches test `isEmptyOrNull` first. -/
def evalCbBase (W : World) (c : Callable) (arg : AnyVal) : World × EvOut :=
  match c with
  | .cEmpty => (W, .throwBadCast)
  | .cNullPtr => (W, .throwBadCast)
  | .cConst v => (W, .ret v)
  | .cIdent => (W, .ret arg)
  | .cBadCast => (W, .throwBadCast)
  | .cThrow e => (W, .throwOther e)
  | .cRetPromise sp => (W, .ret (.vPromise sp))
  | _ => (W, .ret .vEmpty)

/-- One step of the engine with `recurse` standing for the engine at the
next lower fuel.  Each branch is the direct translation of its source
function; see the equation lemmas `callM_succ`, `evalCb_plain`,
`newPromiseM_succ`, `thenCbM_succ`, `deferResolveM_succ`,
`deferRejectM_succ` and `attachAllM_succ` for the branch bodies restated
over the named wrappers. -/
def engineStep (recurse : World → EngineReq → World × EngineOut)
    (W : World) : EngineReq → World × EngineOut
| .reqCall loc taskId =>
  match W.tasks taskId with
  | none => (W, .outTrace [])
  | some task =>
    match W.holders task.promiseHolder with
    | none => (W, .outTrace [])
    | some ph =>
      if task.state ≠ TaskState.kPending then (W, .outTrace []) else
      if ph.state = TaskState.kPending then (W, .outTrace []) else
      if ph.pendingTasks.head? ≠ some taskId then (W, .outTrace []) else
      let hid := task.promiseHolder
      let W1 := W.modifyHolder hid (fun h => { h with pendingTasks := h.pendingTasks.tail })
      let s1 := W1.serial
      let W2 := { W1 with serial := s1 + 2 }
      let W3 := W2.modifyHolder hid (fun h =>
        { h with callStack := trimStack (h.callStack ++ [⟨loc, s1⟩, ⟨task.loc, s1 + 1⟩]) })
      let W4 := W3.setTask taskId { task with state := ph.state }
      let res :=
        if ph.state = TaskState.kResolved then
          if task.onResolved.isEmptyOrNull then (W4, hid)
          else
            let W5 := W4.modifyHolder hid (fun h => { h with state := .kPending })
            let ev := recurse W5 (.reqEval task.onResolved (W5.holderValue hid) loc)
            let out := match ev.2 with
              | .outEval o => o
              | _ => .ret .vEmpty
            match out with
            | .ret v => settleOrJoin ev.1 hid v
            | .throwBadCast =>
              (ev.1.modifyHolder hid (fun h =>
                { h with value := .vExc true .vEmpty, state := .kRejected }), hid)
            | .throwOther e =>
              (ev.1.modifyHolder hid (fun h =>
                { h with value := .vExc false e, state := .kRejected }), hid)
        else
          if task.onRejected.isEmptyOrNull then (W4, hid)
          else
            let W5 := W4.modifyHolder hid (fun h => { h with state := .kPending })
            let ev := recurse W5 (.reqEval task.onRejected (W5.holderValue hid) loc)
            let out := match ev.2 with
              | .outEval o => o
              | _ => .ret .vEmpty
            match out with
            | .ret v => settleOrJoin ev.1 hid v
            | .throwBadCast =>
              (ev.1.modifyHolder hid (fun h => { h with state := .kRejected }), hid)
            | .throwOther e =>
              (ev.1.modifyHolder hid (fun h =>
                { h with value := .vExc false e, state := .kRejected }), hid)
      let W8 :=
        match res.1.tasks taskId with
        | some t => res.1.setTask taskId { t with onResolved := .cEmpty, onRejected := .cEmpty }
        | none => res.1
      match W8.holderTasks res.2 with
      | [] => (W8, .outTrace [taskId])
      | t2 :: _ =>
        let r2 := recurse W8 (.reqCall loc t2)
        let tr2 := match r2.2 with
          | .outTrace tr => tr
          | _ => []
        (r2.1, .outTrace (taskId :: tr2))
| .reqEval c arg loc =>
  match c with
  | .cFinallyRes cb =>
    let rb := match cb with
      | .cbThrow e => RunBeh.rb_throw e
      | _ => RunBeh.rb_resolve arg
    let r := recurse W (.reqNewPromise loc rb)
    let sp := match r.2 with
      | .outPromise sp _ => sp
      | _ => 0
    (r.1, .outEval (.ret (.vPromise sp)))
  | .cFinallyRej cb =>
    let rb := match cb with
      | .cbThrow e => RunBeh.rb_throw e
      | _ => RunBeh.rb_reject arg
    let r := recurse W (.reqNewPromise loc rb)
    let sp := match r.2 with
      | .outPromise sp _ => sp
      | _ => 0
    (r.1, .outEval (.ret (.vPromise sp)))
  | .cAllRes cell idx d =>
    match W.cells cell with
    | none => (W, .outEval (.ret .vEmpty))
    | some cc =>
      let arr := cc.retArr.set idx arg
      let fin := cc.finished + 1
      let W1 := W.setCell cell ⟨fin, cc.size, arr⟩
      let W2 := if cc.size ≤ fin then (recurse W1 (.reqDeferResolve d loc (.vVec arr))).1
        else W1
      (W2, .outEval (.ret .vEmpty))
  | .cAllRej d => ((recurse W (.reqDeferReject d loc arg)).1, .outEval (.ret .vEmpty))
  | c =>
    let r := evalCbBase W c arg
    (r.1, .outEval r.2)
| .reqNewPromise loc rb =>
  let hid := W.nextId
  let spId := W.nextId + 1
  let W1 : World :=
    { W with
      nextId := W.nextId + 2
      holders := Function.update W.holders hid (some ⟨[spId], [], .kPending, .vEmpty, []⟩)
      sps := Function.update W.sps spId (some ⟨hid⟩) }
  let r := recurse W1 (.reqThen spId loc .cEmpty .cEmpty)
  let taskId := match r.2 with
    | .outTask tid => tid
    | _ => 0
  let dspId := r.1.nextId
  let tHolder := match r.1.tasks taskId with
    | some t => t.promiseHolder
    | none => hid
  let W3 : World :=
    { r.1 with
      nextId := r.1.nextId + 1
      sps := Function.update r.1.sps dspId (some ⟨tHolder⟩) }
  let d : DeferT := ⟨taskId, dspId⟩
  let W4 := match rb with
    | .rb_nothing => W3
    | .rb_resolve v => (recurse W3 (.reqDeferResolve d loc v)).1
    | .rb_reject v => (recurse W3 (.reqDeferReject d loc v)).1
    | .rb_throw e => (recurse W3 (.reqDeferReject d loc (.vExc false e))).1
    | .rb_allAttach ps cell => (recurse W3 (.reqAttachAll loc ps 0 cell d)).1
  (W4, .outPromise spId d)
| .reqThen spId loc onRes onRej =>
  match W.sps spId with
  | none => (W, .outTask 0)
  | some sp =>
    let hid := sp.promiseHolder
    let tid := W.nextId
    let W1 : World :=
      { W with
        nextId := W.nextId + 1
        tasks := Function.update W.tasks tid (some ⟨.kPending, hid, loc, onRes, onRej⟩) }
    let W2 := W1.modifyHolder hid (fun h => { h with pendingTasks := h.pendingTasks ++ [tid] })
    ((recurse W2 (.reqCall loc tid)).1, .outTask tid)
| .reqDeferResolve d loc arg =>
  match W.tasks d.task with
  | none => (W, .outUnit)
  | some t =>
    if t.state ≠ TaskState.kPending then (W, .outUnit) else
    match W.sps d.sharedPromise with
    | none => (W, .outUnit)
    | some sp =>
      let W1 := W.modifyHolder sp.promiseHolder
        (fun h => { h with state := .kResolved, value := arg })
      ((recurse W1 (.reqCall loc d.task)).1, .outUnit)
| .reqDeferReject d loc arg =>
  match W.tasks d.task with
  | none => (W, .outUnit)
  | some t =>
    if t.state ≠ TaskState.kPending then (W, .outUnit) else
    match W.sps d.sharedPromise with
    | none => (W, .outUnit)
    | some sp =>
      let W1 := W.modifyHolder sp.promiseHolder
        (fun h => { h with state := .kRejected, value := arg })
      ((recurse W1 (.reqCall loc d.task)).1, .outUnit)
| .reqAttachAll loc ps idx cell d =>
  match ps with
  | [] => (W, .outUnit)
  | sp :: rest =>
    let W1 := (recurse W (.reqThen sp loc (.cAllRes cell idx d) (.cAllRej d))).1
    ((recurse W1 (.reqAttachAll loc rest (idx + 1) cell d)).1, .outUnit)

/-- The fuel-indexed engine: at zero fuel only the fuel-free callable
invocations still answer (matching the unbounded plain cases of the source
callables); every recursive operation falls back to a no-op.  At positive
fuel one `engineStep` runs with the engine at the next lower fuel. -/
def engine : Nat → World → EngineReq → World × EngineOut
| 0, W, req =>
  match req with
  | .reqEval c arg _ =>
    let r := evalCbBase W c arg
    (r.1, .outEval r.2)
  | .reqCall _ _ => (W, .outTrace [])
  | .reqNewPromise _ _ => (W, .outPromise 0 ⟨0, 0⟩)
  | .reqThen _ _ _ _ => (W, .outTask 0)
  | _ => (W, .outUnit)
| fuel+1, W, req => engineStep (engine fuel) W req

/-- The engine loop `call(loc, task)` (promise_inl.hpp 207-400),
single-threaded build: return unless the task is still pending, its holder
alive and settled, and the task at the queue front (the single-threaded
build asserts `pendingTasks.front() == task`; the model returns unchanged
where the assertion would fail).  Then pop the task, push two call records
and trim the trace, copy the holder state to the task, run the matching
continuation with the holder transiently re-set to Pending (empty or
nullptr-typed callables pass the settlement through unchanged), settle or
join on the result, catch a `bad_any_cast` from the rejected branch as
pass-through and any other throw as a rejection with the captured
exception, clear the task's callables, and continue with the front task of
the (possibly joined) current holder.  Also returns the identities of the
tasks executed, in execution order. -/
def callM (fuel : Nat) (W : World) (loc taskId : Nat) : World × List Nat :=
  let r := engine fuel W (.reqCall loc taskId)
  (r.1, match r.2 with
    | .outTrace tr => tr
    | _ => [])

/-- Invocation of a continuation callable on the current holder value (the
`task->onResolved_.call(promiseHolder->value_)` steps).  Plain callables
leave the world untouched; the two `finally` closures create a fresh
promise whose body reruns the user callback — swallowing only
`bad_any_cast` — and re-issues the captured settlement
(promise_inl.hpp 689-707); the two `all` closures update the shared cell
and settle the combinator's outer deferred when appropriate
(promise_inl.hpp 853-859). -/
def evalCb (fuel : Nat) (W : World) (c : Callable) (arg : AnyVal) (loc : Nat) :
    World × EvOut :=
  let r := engine fuel W (.reqEval c arg loc)
  (r.1, match r.2 with
    | .outEval o => o
    | _ => .ret .vEmpty)

/-- `newPromise(loc, run)` (promise_inl.hpp 768-787): allocate a fresh
holder and its SharedPromise owner, attach the initial pass-through task via
`then(loc, any(), any())`, build a `Defer` on the front task, execute the
body, and convert any throw from the body into a rejection of that
deferred.  Returns the new handle and the deferred handed to the body. -/
def newPromiseM (fuel : Nat) (W : World) (loc : Nat) (rb : RunBeh) :
    World × Nat × DeferT :=
  let r := engine fuel W (.reqNewPromise loc rb)
  (r.1, match r.2 with
    | .outPromise sp d => (sp, d)
    | _ => (0, ⟨0, 0⟩))

/-- `Promise::then(loc, onResolved, onRejected)` (promise_inl.hpp 660-679):
allocate a pending task holding the two callables, append it to the
holder's queue, and invoke the engine on it once (a no-op while the holder
is still pending).  Returns the new task's identity. -/
def thenCbM (fuel : Nat) (W : World) (spId loc : Nat) (onRes onRej : Callable) :
    World × Nat :=
  let r := engine fuel W (.reqThen spId loc onRes onRej)
  (r.1, match r.2 with
    | .outTask tid => tid
    | _ => 0)

/-- `Defer::resolve(loc, arg)` (promise_inl.hpp 414-425): a no-op unless
the bound task is still pending; otherwise set the holder designated by
the deferred's own SharedPromise to Resolved with the argument and run the
engine on the bound task. -/
def deferResolveM (fuel : Nat) (W : World) (d : DeferT) (loc : Nat) (arg : AnyVal) :
    World :=
  (engine fuel W (.reqDeferResolve d loc arg)).1

/-- `Defer::reject(loc, arg)` (promise_inl.hpp 427-438): symmetric to
`Defer::resolve` with the Rejected state. -/
def deferRejectM (fuel : Nat) (W : World) (d : DeferT) (loc : Nat) (arg : AnyVal) :
    World :=
  (engine fuel W (.reqDeferReject d loc arg)).1

/-- The attachment loop in the body of `all` (promise_inl.hpp 851-863):
for each input promise, in input order, register the pair of continuations
that record the result slot or reject the combinator's deferred. -/
def attachAllM (fuel : Nat) (W : World) (loc : Nat) (ps : List Nat)
    (idx cell : Nat) (d : DeferT) : World :=
  (engine fuel W (.reqAttachAll loc ps idx cell d)).1

/-- The `then(Promise)` overload (promise_inl.hpp 632-653): `join` the
argument handle's holder (as `right`) into this handle's holder (as `left`),
then, if the fused queue is non-empty, run the engine on its front task. -/
def thenPromiseM (fuel : Nat) (W : World) (spId otherSp : Nat) (loc : Nat) : World :=
  match W.sps spId, W.sps otherSp with
  | some sp, some osp =>
    let W1 := joinM W sp.promiseHolder osp.promiseHolder
    match W1.sps spId with
    | some sp2 =>
      match W1.holderTasks sp2.promiseHolder with
      | [] => W1
      | t :: _ => (callM fuel W1 loc t).1
    | none => W1
  | _, _ => W

/-- `Promise::finally(loc, onFinally)` (promise_inl.hpp 689-707): `then` with
the two closures that run the callback on either outcome, swallow only its
type-mismatch error, and re-issue the original settlement through a fresh
promise returned to the engine. -/
def finallyM (fuel : Nat) (W : World) (spId loc : Nat) (cb : CbBeh) : World :=
  (thenCbM fuel W spId loc (.cFinallyRes cb) (.cFinallyRej cb)).1

/-- Modelled from the spec: the free function `resolve(loc)` that `all` uses
for an empty input list is declared in promise.hpp, which is not under src/.
Following the spec ("Free functions: `all`, `race`, ..., `resolve(v)`" and
"Resolves immediately with an empty sequence when the input list is empty"),
it creates a promise through `newPromise` whose body immediately resolves
the deferred with the empty sequence of results. -/
def resolveImmediateM (fuel : Nat) (W : World) (loc : Nat) : World × Nat :=
  let r := newPromiseM fuel W loc (.rb_resolve (.vVec []))
  (r.1, r.2.1)

/-- The combinator `all(loc, promise_list)` (promise_inl.hpp 840-865): an
empty input list is answered by `resolve(loc)`; otherwise a shared cell with
the finished counter, input count and preallocated result slots is set up
and the `newPromise` body attaches the cell-updating continuation pair to
every input promise in order. -/
def allM (fuel : Nat) (W : World) (loc : Nat) (ps : List Nat) : World × Nat :=
  if ps.length = 0 then resolveImmediateM fuel W loc
  else
    let cell := W.nextId
    let W1 : World :=
      { W with
        nextId := W.nextId + 1
        cells := Function.update W.cells cell
          (some ⟨0, ps.length, List.replicate ps.length .vEmpty⟩) }
    let r := newPromiseM fuel W1 loc (.rb_allAttach ps cell)
    (r.1, r.2.1)

/-- One promise chain driven to completion: `newPromise`, an immediate
resolve and two value continuations; each engine step pushes two trace
records and trims to the capacity. -/
def trimChain (W0 : World) : World × Nat :=
  let p := newPromiseM 40 W0 0 .rb_nothing
  let W1 := deferResolveM 40 p.1 p.2.2 0 (.vInt 0)
  let W2 := (thenCbM 40 W1 p.2.1 0 (.cConst (.vInt 1)) .cEmpty).1
  let W3 := (thenCbM 40 W2 p.2.1 0 (.cConst (.vInt 2)) .cEmpty).1
  (W3, p.2.1)

/-- A promise resolved with 1 and fully drained: holder 0 is Resolved at
rest with an empty queue. -/
def resMidW : World :=
  let p := newPromiseM 30 emptyWorld 0 .rb_nothing
  deferResolveM 30 p.1 p.2.2 0 (.vInt 1)

/-- The same holder after a continuation that throws is attached via `then`:
the engine runs it at once against the Resolved settlement and re-settles
the same holder as Rejected. -/
def resThenThrowW : World :=
  (thenCbM 30 resMidW 1 0 (.cThrow (.vInt 9)) .cEmpty).1

/-- A promise with two rejection continuations attached while pending — the
first fails argument binding, the second returns its argument — then
rejected with `v`. -/
def rejChainW (v : AnyVal) : World :=
  let p := newPromiseM 30 emptyWorld 0 .rb_nothing
  let W1 := (thenCbM 30 p.1 p.2.1 0 .cEmpty .cBadCast).1
  let W2 := (thenCbM 30 W1 p.2.1 0 .cEmpty .cIdent).1
  deferRejectM 30 W2 p.2.2 0 v

/-- A promise with one rejection continuation that fails argument binding,
then rejected with `v`. -/
def rejBadCastW (v : AnyVal) : World :=
  let p := newPromiseM 30 emptyWorld 0 .rb_nothing
  let W1 := (thenCbM 30 p.1 p.2.1 0 .cEmpty .cBadCast).1
  deferRejectM 30 W1 p.2.2 0 v

/-- A promise with one resolution continuation that fails argument binding,
then resolved with `v`. -/
def resBadCastW (v : AnyVal) : World :=
  let p := newPromiseM 30 emptyWorld 0 .rb_nothing
  let W1 := (thenCbM 30 p.1 p.2.1 0 .cBadCast .cEmpty).1
  deferResolveM 30 W1 p.2.2 0 v

/-- A settled-Resolved promise (value `v`) followed by `finally(cb)`. -/
def finallyResW (v : AnyVal) (cb : CbBeh) : World :=
  let p := newPromiseM 7 emptyWorld 0 .rb_nothing
  finallyM 7 (deferResolveM 7 p.1 p.2.2 0 v) p.2.1 0 cb

/-- A settled-Rejected promise (value `v`) followed by `finally(cb)`. -/
def finallyRejW (v : AnyVal) (cb : CbBeh) : World :=
  let p := newPromiseM 7 emptyWorld 0 .rb_nothing
  finallyM 7 (deferRejectM 7 p.1 p.2.2 0 v) p.2.1 0 cb

def Callable.basic : Callable → Bool
| .cFinallyRes _ => false
| .cFinallyRej _ => false
| .cAllRes _ _ _ => false
| .cAllRej _ => false
| _ => true

/-! The `finally` pipeline, executed symbolically: explicit worlds for every
stage of `newPromise` + `Defer::resolve`/`Defer::reject` + `then(finally
closures)` on a settled holder, tied to the engine by the step lemmas. -/

/-- World after the allocation step of the outer `newPromise`. -/
def c6N1 : World :=
  { emptyWorld with
    nextId := 2
    holders := Function.update emptyWorld.holders 0
      (some ⟨[1], [], .kPending, .vEmpty, []⟩)
    sps := Function.update emptyWorld.sps 1 (some ⟨0⟩) }

/-- World after the initial pass-through task is attached. -/
def c6N3 : World :=
  ({ c6N1 with
     nextId := 3
     tasks := Function.update c6N1.tasks 2
       (some ⟨.kPending, 0, 0, .cEmpty, .cEmpty⟩) }).modifyHolder 0
    (fun h => { h with pendingTasks := h.pendingTasks ++ [2] })

/-- World returned by `newPromise(rb_nothing)`: the deferred's own
SharedPromise 3 added. -/
def c6N4 : World :=
  { c6N3 with
    nextId := 4
    sps := Function.update c6N3.sps 3 (some ⟨0⟩) }

/-- `Defer::resolve(v)` settles holder 0 Resolved with `v`. -/
def c6D1 (v : AnyVal) : World :=
  c6N4.modifyHolder 0 (fun h => { h with state := .kResolved, value := v })

/-- The engine's bookkeeping around running the pass-through task 2. -/
def c6A4 (v : AnyVal) : World :=
  let W1 := (c6D1 v).modifyHolder 0 (fun h => { h with pendingTasks := h.pendingTasks.tail })
  let s1 := W1.serial
  let W2 := { W1 with serial := s1 + 2 }
  let W3 := W2.modifyHolder 0 (fun h =>
    { h with callStack := trimStack (h.callStack ++ [⟨0, s1⟩, ⟨0, s1 + 1⟩]) })
  W3.setTask 2 ⟨.kResolved, 0, 0, .cEmpty, .cEmpty⟩

/-- The settled world: holder 0 Resolved with `v`, no pending work. -/
def c6S (v : AnyVal) : World :=
  (c6A4 v).setTask 2 ⟨.kResolved, 0, 0, .cEmpty, .cEmpty⟩

/-- The settled world followed by `then(finally closures)`: task 4 queued. -/
def c6ResB (v : AnyVal) (cb : CbBeh) : World :=
  ({ c6S v with
     nextId := 5
     tasks := Function.update (c6S v).tasks 4
       (some ⟨.kPending, 0, 0, .cFinallyRes cb, .cFinallyRej cb⟩) }).modifyHolder 0
    (fun h => { h with pendingTasks := h.pendingTasks ++ [4] })

/-- Bookkeeping stages of the resolved-side run of task 4 (the `finally`
continuation pair), before the closure is invoked. -/
def c6ResB4 (v : AnyVal) (cb : CbBeh) : World :=
  let W1 := (c6ResB v cb).modifyHolder 0
    (fun h => { h with pendingTasks := h.pendingTasks.tail })
  let s1 := W1.serial
  let W2 := { W1 with serial := s1 + 2 }
  let W3 := W2.modifyHolder 0 (fun h =>
    { h with callStack := trimStack (h.callStack ++ [⟨0, s1⟩, ⟨0, s1 + 1⟩]) })
  W3.setTask 4 ⟨.kResolved, 0, 0, .cFinallyRes cb, .cFinallyRej cb⟩

/-- The transient-pending world in which the engine invokes the resolved-side
`finally` closure. -/
def c6ResC (v : AnyVal) (cb : CbBeh) : World :=
  (c6ResB4 v cb).modifyHolder 0 (fun h => { h with state := .kPending })

/-- Allocation stage of the fresh promise the `finally` closure creates. -/
def c6NE1 (v : AnyVal) (cb : CbBeh) : World :=
  { c6ResC v cb with
    nextId := 7
    holders := Function.update (c6ResC v cb).holders 5
      (some ⟨[6], [], .kPending, .vEmpty, []⟩)
    sps := Function.update (c6ResC v cb).sps 6 (some ⟨5⟩) }

/-- The fresh promise's pass-through task 7 attached. -/
def c6NE3 (v : AnyVal) (cb : CbBeh) : World :=
  ({ c6NE1 v cb with
     nextId := 8
     tasks := Function.update (c6NE1 v cb).tasks 7
       (some ⟨.kPending, 5, 0, .cEmpty, .cEmpty⟩) }).modifyHolder 5
    (fun h => { h with pendingTasks := h.pendingTasks ++ [7] })

/-- The fresh promise's deferred SharedPromise 8 added. -/
def c6NE4 (v : AnyVal) (cb : CbBeh) : World :=
  { c6NE3 v cb with
    nextId := 9
    sps := Function.update (c6NE3 v cb).sps 8 (some ⟨5⟩) }

/-- The closure's captured settlement re-issued: holder 5 Resolved with `v`. -/
def c6DR1 (v : AnyVal) (cb : CbBeh) : World :=
  (c6NE4 v cb).modifyHolder 5 (fun h => { h with state := .kResolved, value := v })

/-- Bookkeeping of running the fresh promise's pass-through task 7. -/
def c6A7 (v : AnyVal) (cb : CbBeh) : World :=
  let W1 := (c6DR1 v cb).modifyHolder 5
    (fun h => { h with pendingTasks := h.pendingTasks.tail })
  let s1 := W1.serial
  let W2 := { W1 with serial := s1 + 2 }
  let W3 := W2.modifyHolder 5 (fun h =>
    { h with callStack := trimStack (h.callStack ++ [⟨0, s1⟩, ⟨0, s1 + 1⟩]) })
  W3.setTask 7 ⟨.kResolved, 5, 0, .cEmpty, .cEmpty⟩

/-- The world the resolved-side `finally` closure returns in: the fresh
promise (holder 5, handle 6) is settled Resolved with the captured value. -/
def c6ResD (v : AnyVal) (cb : CbBeh) : World :=
  (c6A7 v cb).setTask 7 ⟨.kResolved, 5, 0, .cEmpty, .cEmpty⟩

/-- `Defer::reject(v)` settles holder 0 Rejected with `v`. -/
def c6E1 (v : AnyVal) : World :=
  c6N4.modifyHolder 0 (fun h => { h with state := .kRejected, value := v })

/-- Bookkeeping of the pass-through task 2 on the rejected side. -/
def c6E4 (v : AnyVal) : World :=
  let W1 := (c6E1 v).modifyHolder 0 (fun h => { h with pendingTasks := h.pendingTasks.tail })
  let s1 := W1.serial
  let W2 := { W1 with serial := s1 + 2 }
  let W3 := W2.modifyHolder 0 (fun h =>
    { h with callStack := trimStack (h.callStack ++ [⟨0, s1⟩, ⟨0, s1 + 1⟩]) })
  W3.setTask 2 ⟨.kRejected, 0, 0, .cEmpty, .cEmpty⟩

/-- The settled world of the rejected side: holder 0 Rejected with `v`. -/
def c6T (v : AnyVal) : World :=
  (c6E4 v).setTask 2 ⟨.kRejected, 0, 0, .cEmpty, .cEmpty⟩

/-- The rejected settled world followed by `then(finally closures)`. -/
def c6RejB (v : AnyVal) (cb : CbBeh) : World :=
  ({ c6T v with
     nextId := 5
     tasks := Function.update (c6T v).tasks 4
       (some ⟨.kPending, 0, 0, .cFinallyRes cb, .cFinallyRej cb⟩) }).modifyHolder 0
    (fun h => { h with pendingTasks := h.pendingTasks ++ [4] })

/-- Rejected-side analogues of the task-4 bookkeeping stages. -/
def c6RejB4 (v : AnyVal) (cb : CbBeh) : World :=
  let W1 := (c6RejB v cb).modifyHolder 0
    (fun h => { h with pendingTasks := h.pendingTasks.tail })
  let s1 := W1.serial
  let W2 := { W1 with serial := s1 + 2 }
  let W3 := W2.modifyHolder 0 (fun h =>
    { h with callStack := trimStack (h.callStack ++ [⟨0, s1⟩, ⟨0, s1 + 1⟩]) })
  W3.setTask 4 ⟨.kRejected, 0, 0, .cFinallyRes cb, .cFinallyRej cb⟩

def c6RejC (v : AnyVal) (cb : CbBeh) : World :=
  (c6RejB4 v cb).modifyHolder 0 (fun h => { h with state := .kPending })

def c6RejNE1 (v : AnyVal) (cb : CbBeh) : World :=
  { c6RejC v cb with
    nextId := 7
    holders := Function.update (c6RejC v cb).holders 5
      (some ⟨[6], [], .kPending, .vEmpty, []⟩)
    sps := Function.update (c6RejC v cb).sps 6 (some ⟨5⟩) }

def c6RejNE3 (v : AnyVal) (cb : CbBeh) : World :=
  ({ c6RejNE1 v cb with
     nextId := 8
     tasks := Function.update (c6RejNE1 v cb).tasks 7
       (some ⟨.kPending, 5, 0, .cEmpty, .cEmpty⟩) }).modifyHolder 5
    (fun h => { h with pendingTasks := h.pendingTasks ++ [7] })

def c6RejNE4 (v : AnyVal) (cb : CbBeh) : World :=
  { c6RejNE3 v cb with
    nextId := 9
    sps := Function.update (c6RejNE3 v cb).sps 8 (some ⟨5⟩) }

def c6RejDR1 (v : AnyVal) (cb : CbBeh) : World :=
  (c6RejNE4 v cb).modifyHolder 5 (fun h => { h with state := .kRejected, value := v })

def c6RejA7 (v : AnyVal) (cb : CbBeh) : World :=
  let W1 := (c6RejDR1 v cb).modifyHolder 5
    (fun h => { h with pendingTasks := h.pendingTasks.tail })
  let s1 := W1.serial
  let W2 := { W1 with serial := s1 + 2 }
  let W3 := W2.modifyHolder 5 (fun h =>
    { h with callStack := trimStack (h.callStack ++ [⟨0, s1⟩, ⟨0, s1 + 1⟩]) })
  W3.setTask 7 ⟨.kRejected, 5, 0, .cEmpty, .cEmpty⟩

/-- The world the rejected-side `finally` closure returns in: the fresh
promise (holder 5, handle 6) is settled Rejected with the captured value. -/
def c6RejD (v : AnyVal) (cb : CbBeh) : World :=
  (c6RejA7 v cb).setTask 7 ⟨.kRejected, 5, 0, .cEmpty, .cEmpty⟩

/-- The callables whose invocation needs no engine work and whose result is
never a Promise handle: the pass-through empties, the identity binder, the
constant returning a non-Promise value, and the two throwing behaviours. -/
def plainCb (c : Callable) : Prop :=
  c = .cEmpty ∨ c = .cNullPtr ∨ c = .cIdent ∨ c = .cBadCast ∨
  (∃ w, c = .cConst w ∧ w.isPromise = false) ∨ (∃ e, c = .cThrow e)

/-- A holder in mid-chain running position: settled with a non-Promise value,
its queue exactly `ts`, each queued task pending, pointed back at the holder
and carrying plain continuations on both sides, with no duplicate task ids. -/
def PlainCfg (W : World) (hid : Nat) (ts : List Nat) : Prop :=
  (∃ ph, W.holders hid = some ph ∧ ph.state ≠ .kPending ∧
    ph.value.isPromise = false ∧ ph.pendingTasks = ts) ∧
  ts.Nodup ∧
  ∀ t ∈ ts, ∃ tk, W.tasks t = some tk ∧ tk.promiseHolder = hid ∧
    tk.state = .kPending ∧ plainCb tk.onResolved ∧ plainCb tk.onRejected

/-- The bookkeeping the engine performs before invoking a continuation
(promise_inl.hpp 242-255): pop the task, push two trace records, copy the
holder's state onto the task. -/
def afterPop (W : World) (loc t hid : Nat) (tk : Task) (ph : PromiseHolder) : World :=
  let W1 := W.modifyHolder hid (fun h => { h with pendingTasks := h.pendingTasks.tail })
  let s1 := W1.serial
  let W2 := { W1 with serial := s1 + 2 }
  let W3 := W2.modifyHolder hid (fun h =>
    { h with callStack := trimStack (h.callStack ++ [⟨loc, s1⟩, ⟨tk.loc, s1 + 1⟩]) })
  W3.setTask t { tk with state := ph.state }

/-- The transient state around the continuation invocation: the holder is
re-set to Pending (promise_inl.hpp 263 and 318). -/
def midPend (W : World) (loc t hid : Nat) (tk : Task) (ph : PromiseHolder) : World :=
  (afterPop W loc t hid tk ph).modifyHolder hid (fun h => { h with state := .kPending })

/-- The continuation of a queue run: stop when the queue is exhausted,
otherwise run the engine on the next front task and prepend this task to the
returned trace. -/
def contTrace (f : Nat) (W : World) (loc t : Nat) : List Nat → World × EngineOut
| [] => (W, .outTrace [t])
| t2 :: _ =>
  ((engine f W (.reqCall loc t2)).1,
    .outTrace (t :: (match (engine f W (.reqCall loc t2)).2 with
      | .outTrace tr => tr
      | _ => [])))

/-- A concrete plain configuration: one settled holder carrying two plain
continuation tasks. -/
def c2W : World :=
  { emptyWorld with
    holders := Function.update emptyWorld.holders 0
      (some ⟨[], [10, 11], .kResolved, .vInt 1, []⟩)
    tasks := fun i =>
      if i = 10 then some ⟨.kPending, 0, 0, .cIdent, .cEmpty⟩
      else if i = 11 then some ⟨.kPending, 0, 0, .cConst (.vInt 2), .cEmpty⟩ else none }

/-! Bookkeeping lemmas about world updates: which component each setter
touches, and how lookups read through updates. -/

theorem setTask_holders (W : World) (i : Nat) (t : Task) :
    (W.setTask i t).holders = W.holders := rfl

theorem setTask_sps (W : World) (i : Nat) (t : Task) :
    (W.setTask i t).sps = W.sps := rfl

theorem setTask_tasks_same (W : World) (i : Nat) (t : Task) :
    (W.setTask i t).tasks i = some t := by
  simp [World.setTask]

theorem setTask_tasks_ne (W : World) (i j : Nat) (t : Task) (h : j ≠ i) :
    (W.setTask i t).tasks j = W.tasks j := by
  simp [World.setTask, Function.update_noteq h]

theorem setSp_holders (W : World) (i : Nat) (sp : SharedPromise) :
    (W.setSp i sp).holders = W.holders := rfl

theorem setSp_tasks (W : World) (i : Nat) (sp : SharedPromise) :
    (W.setSp i sp).tasks = W.tasks := rfl

theorem setHolder_tasks (W : World) (i : Nat) (ph : PromiseHolder) :
    (W.setHolder i ph).tasks = W.tasks := rfl

theorem setHolder_sps (W : World) (i : Nat) (ph : PromiseHolder) :
    (W.setHolder i ph).sps = W.sps := rfl

theorem setHolder_holders_same (W : World) (i : Nat) (ph : PromiseHolder) :
    (W.setHolder i ph).holders i = some ph := by
  simp [World.setHolder]

theorem setHolder_holders_ne (W : World) (i j : Nat) (ph : PromiseHolder) (h : j ≠ i) :
    (W.setHolder i ph).holders j = W.holders j := by
  simp [World.setHolder, Function.update_noteq h]

theorem modifyHolder_tasks (W : World) (i : Nat) (f : PromiseHolder → PromiseHolder) :
    (W.modifyHolder i f).tasks = W.tasks := by
  unfold World.modifyHolder
  cases W.holders i <;> rfl

theorem modifyHolder_sps (W : World) (i : Nat) (f : PromiseHolder → PromiseHolder) :
    (W.modifyHolder i f).sps = W.sps := by
  unfold World.modifyHolder
  cases W.holders i <;> rfl

theorem modifyHolder_cells (W : World) (i : Nat) (f : PromiseHolder → PromiseHolder) :
    (W.modifyHolder i f).cells = W.cells := by
  unfold World.modifyHolder
  cases W.holders i <;> rfl

theorem modifyHolder_holders_same (W : World) (i : Nat) (f : PromiseHolder → PromiseHolder)
    (ph : PromiseHolder) (h : W.holders i = some ph) :
    (W.modifyHolder i f).holders i = some (f ph) := by
  unfold World.modifyHolder
  rw [h]
  exact setHolder_holders_same ..

theorem modifyHolder_holders_ne (W : World) (i j : Nat) (f : PromiseHolder → PromiseHolder)
    (h : j ≠ i) : (W.modifyHolder i f).holders j = W.holders j := by
  unfold World.modifyHolder
  cases W.holders i
  · rfl
  · exact setHolder_holders_ne _ _ _ _ h

theorem modifyHolder_map_proj {α : Type} (g : PromiseHolder → α)
    (f : PromiseHolder → PromiseHolder) (hf : ∀ ph, g (f ph) = g ph) (W : World) (i j : Nat) :
    ((W.modifyHolder i f).holders j).map g = ((W.holders j).map g) := by
  by_cases hji : j = i
  · subst hji
    cases h : W.holders j
    · rw [show W.modifyHolder j f = W by simp only [World.modifyHolder, h], h]
    · rw [modifyHolder_holders_same _ _ _ _ h]
      simp [hf]
  · rw [modifyHolder_holders_ne _ _ _ _ hji]

/-! Effects of the two retargeting folds inside `join`. -/

theorem retargetTasks_holders (l : Nat) (ts : List Nat) : ∀ (W : World),
    (retargetTasks l W ts).holders = W.holders := by
  induction ts with
  | nil => intro W; rfl
  | cons a ts ih =>
    intro W
    rw [retargetTasks, ih]
    cases W.tasks a <;> rfl

theorem retargetTasks_sps (l : Nat) (ts : List Nat) : ∀ (W : World),
    (retargetTasks l W ts).sps = W.sps := by
  induction ts with
  | nil => intro W; rfl
  | cons a ts ih =>
    intro W
    rw [retargetTasks, ih]
    cases W.tasks a <;> rfl

theorem retargetTasks_not_mem (l : Nat) (ts : List Nat) : ∀ (W : World) (t : Nat), t ∉ ts →
    (retargetTasks l W ts).tasks t = W.tasks t := by
  induction ts with
  | nil => intro W t _; rfl
  | cons a ts ih =>
    intro W t ht
    have hta : t ≠ a := fun h => ht (h ▸ List.mem_cons_self a ts)
    have hts : t ∉ ts := fun h => ht (List.mem_cons_of_mem a h)
    rw [retargetTasks, ih _ _ hts]
    cases h : W.tasks a
    · rfl
    · exact setTask_tasks_ne _ _ _ _ hta

theorem retargetTasks_mem (l : Nat) (ts : List Nat) : ∀ (W : World) (t : Nat), t ∈ ts →
    (retargetTasks l W ts).tasks t =
      (W.tasks t).map (fun tk => { tk with promiseHolder := l }) := by
  induction ts with
  | nil => intro W t ht; cases ht
  | cons a ts ih =>
    intro W t ht
    by_cases hts : t ∈ ts
    · rw [retargetTasks, ih _ _ hts]
      by_cases hta : t = a
      · subst hta
        cases h : W.tasks t
        · simp [h]
        · simp [h, setTask_tasks_same]
      · cases h : W.tasks a
        · simp only [h]
        · simp only [h, setTask_tasks_ne _ _ _ _ hta]
    · have hta : t = a := by
        rcases List.mem_cons.1 ht with h' | h'
        · exact h'
        · exact absurd h' hts
      subst hta
      rw [retargetTasks, retargetTasks_not_mem _ _ _ _ hts]
      cases h : W.tasks t
      · simp [h]
      · simp [h, setTask_tasks_same]

theorem modifyHolder_of_none (W : World) (i : Nat) (f : PromiseHolder → PromiseHolder)
    (h : W.holders i = none) : W.modifyHolder i f = W := by
  simp only [World.modifyHolder, h]

theorem retargetOwners_tasks (l : Nat) (os : List Nat) : ∀ (W : World),
    (retargetOwners l W os).tasks = W.tasks := by
  induction os with
  | nil => intro W; rfl
  | cons a os ih =>
    intro W
    rw [retargetOwners, ih]
    cases h : W.sps a
    · rfl
    · rw [modifyHolder_tasks, setSp_tasks]

theorem retargetOwners_map_proj {α : Type} (g : PromiseHolder → α)
    (hg : ∀ ph ow, g { ph with owners := ow } = g ph) (l : Nat) (os : List Nat) :
    ∀ (W : World) (j : Nat),
      ((retargetOwners l W os).holders j).map g = ((W.holders j).map g) := by
  induction os with
  | nil => intro W j; rfl
  | cons a os ih =>
    intro W j
    rw [retargetOwners, ih]
    cases h : W.sps a
    · rfl
    · rw [modifyHolder_map_proj g _ (fun ph => hg ph _), setSp_holders]

theorem holderState_of_some (W : World) (i : Nat) (ph : PromiseHolder)
    (h : W.holders i = some ph) : W.holderState i = ph.state := by
  unfold World.holderState
  rw [h]
  rfl

theorem holderTasks_of_some (W : World) (i : Nat) (ph : PromiseHolder)
    (h : W.holders i = some ph) : W.holderTasks i = ph.pendingTasks := by
  unfold World.holderTasks
  rw [h]
  rfl

theorem holderValue_of_some (W : World) (i : Nat) (ph : PromiseHolder)
    (h : W.holders i = some ph) : W.holderValue i = ph.value := by
  unfold World.holderValue
  rw [h]
  rfl

theorem holderStack_of_some (W : World) (i : Nat) (ph : PromiseHolder)
    (h : W.holders i = some ph) : W.holderStack i = ph.callStack := by
  unfold World.holderStack
  rw [h]
  rfl

theorem holderOwners_of_some (W : World) (i : Nat) (ph : PromiseHolder)
    (h : W.holders i = some ph) : W.holderOwners i = ph.owners := by
  unfold World.holderOwners
  rw [h]
  rfl

theorem holderState_of_map (W : World) (i : Nat) (s : TaskState)
    (h : (W.holders i).map PromiseHolder.state = some s) : W.holderState i = s := by
  cases hh : W.holders i
  · rw [hh] at h; cases h
  · rw [hh] at h
    injection h with h
    unfold World.holderState
    rw [hh]
    exact h

theorem holderTasks_of_map (W : World) (i : Nat) (q : List Nat)
    (h : (W.holders i).map PromiseHolder.pendingTasks = some q) : W.holderTasks i = q := by
  cases hh : W.holders i
  · rw [hh] at h; cases h
  · rw [hh] at h
    injection h with h
    unfold World.holderTasks
    rw [hh]
    exact h

theorem joinM_eq_of_live (W : World) (l r : Nat)
    (hl : ((W.holders l).isSome : Prop)) (hr : ((W.holders r).isSome : Prop)) :
    joinM W l r = retargetOwners l (joinShell (joinStacks (joinTasks W l r) l r) r).1
      (joinShell (joinStacks (joinTasks W l r) l r) r).2 := by
  have hguard : ¬(((W.holders l).isNone : Prop) ∨ ((W.holders r).isNone : Prop)) := by
    rcases Option.isSome_iff_exists.1 hl with ⟨x, hx⟩
    rcases Option.isSome_iff_exists.1 hr with ⟨y, hy⟩
    simp [hx, hy]
  unfold joinM
  rw [if_neg hguard]

theorem holderStack_of_map (W : World) (i : Nat) (cs : List CallRecord)
    (h : (W.holders i).map PromiseHolder.callStack = some cs) : W.holderStack i = cs := by
  cases hh : W.holders i
  · rw [hh] at h; cases h
  · rw [hh] at h
    injection h with h
    unfold World.holderStack
    rw [hh]
    exact h

theorem joinTasks_spec (W : World) (l r : Nat) (phl phr : PromiseHolder)
    (hlr : l ≠ r) (hl : W.holders l = some phl) (hr : W.holders r = some phr) :
    (joinTasks W l r).holders l =
      some { phl with pendingTasks := phl.pendingTasks ++ phr.pendingTasks } ∧
    (joinTasks W l r).holders r = some { phr with pendingTasks := [] } ∧
    (∀ j, j ≠ l → j ≠ r → (joinTasks W l r).holders j = W.holders j) ∧
    (joinTasks W l r).tasks = (retargetTasks l W phr.pendingTasks).tasks ∧
    (joinTasks W l r).sps = W.sps := by
  have hq : W.holderTasks r = phr.pendingTasks := holderTasks_of_some _ _ _ hr
  have hrl : r ≠ l := fun h => hlr h.symm
  unfold joinTasks
  rw [hq, if_neg hlr]
  have hAl : (retargetTasks l W phr.pendingTasks).holders l = some phl := by
    rw [retargetTasks_holders]; exact hl
  have hAr : (retargetTasks l W phr.pendingTasks).holders r = some phr := by
    rw [retargetTasks_holders]; exact hr
  refine ⟨?_, ?_, ?_, ?_, ?_⟩
  · rw [modifyHolder_holders_ne _ _ _ _ hlr, modifyHolder_holders_same _ _ _ _ hAl]
  · rw [modifyHolder_holders_same]
    rw [modifyHolder_holders_ne _ _ _ _ hrl]
    exact hAr
  · intro j hjl hjr
    rw [modifyHolder_holders_ne _ _ _ _ hjr, modifyHolder_holders_ne _ _ _ _ hjl,
      retargetTasks_holders]
  · rw [modifyHolder_tasks, modifyHolder_tasks]
  · rw [modifyHolder_sps, modifyHolder_sps, retargetTasks_sps]

theorem joinStacks_spec (W : World) (l r : Nat) (phl phr : PromiseHolder)
    (hlr : l ≠ r) (hl : W.holders l = some phl) (hr : W.holders r = some phr) :
    (joinStacks W l r).holders l =
      some { phl with callStack := phr.callStack ++ phl.callStack } ∧
    (joinStacks W l r).holders r = some { phr with callStack := [] } ∧
    (∀ j, j ≠ l → j ≠ r → (joinStacks W l r).holders j = W.holders j) ∧
    (joinStacks W l r).tasks = W.tasks ∧
    (joinStacks W l r).sps = W.sps := by
  have hs : W.holderStack r = phr.callStack := holderStack_of_some _ _ _ hr
  have hrl : r ≠ l := fun h => hlr h.symm
  unfold joinStacks
  rw [if_neg hlr, hs]
  refine ⟨?_, ?_, ?_, ?_, ?_⟩
  · rw [modifyHolder_holders_ne _ _ _ _ hlr, modifyHolder_holders_same _ _ _ _ hl]
  · rw [modifyHolder_holders_same]
    rw [modifyHolder_holders_ne _ _ _ _ hrl]
    exact hr
  · intro j hjl hjr
    rw [modifyHolder_holders_ne _ _ _ _ hjr, modifyHolder_holders_ne _ _ _ _ hjl]
  · rw [modifyHolder_tasks, modifyHolder_tasks]
  · rw [modifyHolder_sps, modifyHolder_sps]

theorem joinShell_spec (W : World) (r : Nat) (phr : PromiseHolder)
    (hr : W.holders r = some phr) :
    (joinShell W r).1.holders r = some { phr with owners := [], state := .kResolved } ∧
    (∀ j, j ≠ r → (joinShell W r).1.holders j = W.holders j) ∧
    (joinShell W r).2 = phr.owners ∧
    (joinShell W r).1.tasks = W.tasks ∧
    (joinShell W r).1.sps = W.sps := by
  have how : W.holderOwners r = phr.owners := holderOwners_of_some _ _ _ hr
  unfold joinShell
  rw [how]
  refine ⟨?_, ?_, rfl, ?_, ?_⟩
  · rw [modifyHolder_holders_same _ _ _ _ (modifyHolder_holders_same _ _ _ _ hr)]
  · intro j hjr
    rw [modifyHolder_holders_ne _ _ _ _ hjr, modifyHolder_holders_ne _ _ _ _ hjr]
  · rw [modifyHolder_tasks, modifyHolder_tasks]
  · rw [modifyHolder_sps, modifyHolder_sps]

/-- C3: after `join(left, right)` on two distinct live holders, every task
that was pending on the right holder has its weak back-reference retargeted
to the left holder, the right holder's pending queue is appended to the end
of the left holder's queue in its original order, and the right holder's
state is forced to Resolved — the mechanism by which the dying holder's
destructor is kept from invoking the uncaught-rejection sink. -/
theorem c3_join_effects (W : World) (l r : Nat) (phl phr : PromiseHolder)
    (hlr : l ≠ r) (hl : W.holders l = some phl) (hr : W.holders r = some phr) :
    (∀ t ∈ phr.pendingTasks, (joinM W l r).tasks t =
        (W.tasks t).map (fun tk => { tk with promiseHolder := l })) ∧
    (joinM W l r).holderTasks l = phl.pendingTasks ++ phr.pendingTasks ∧
    (joinM W l r).holderState r = TaskState.kResolved := by
  obtain ⟨h1l, h1r, h1o, h1t, h1s⟩ := joinTasks_spec W l r phl phr hlr hl hr
  obtain ⟨h2l, h2r, h2o, h2t, h2s⟩ :=
    joinStacks_spec (joinTasks W l r) l r _ _ hlr h1l h1r
  obtain ⟨h3r, h3o, h3ow, h3t, h3s⟩ := joinShell_spec (joinStacks (joinTasks W l r) l r) r _ h2r
  rw [joinM_eq_of_live W l r (by rw [hl]; rfl) (by rw [hr]; rfl)]
  refine ⟨?_, ?_, ?_⟩
  · intro t ht
    rw [retargetOwners_tasks, h3t, h2t, h1t, retargetTasks_mem _ _ _ _ ht]
  · apply holderTasks_of_map
    rw [retargetOwners_map_proj PromiseHolder.pendingTasks (fun ph ow => rfl)]
    have h3l : (joinShell (joinStacks (joinTasks W l r) l r) r).1.holders l =
        some { phl with
          pendingTasks := phl.pendingTasks ++ phr.pendingTasks,
          callStack := phr.callStack ++ phl.callStack } := by
      rw [h3o l hlr]
      exact h2l
    rw [h3l]
    rfl
  · apply holderState_of_map
    rw [retargetOwners_map_proj PromiseHolder.state (fun ph ow => rfl)]
    rw [h3r]
    rfl
theorem setHolder_self (W : World) (i : Nat) (ph : PromiseHolder)
    (h : W.holders i = some ph) : W.setHolder i ph = W := by
  unfold World.setHolder
  rw [← h, Function.update_eq_self]

theorem setSp_self (W : World) (i : Nat) (sp : SharedPromise)
    (h : W.sps i = some sp) : W.setSp i sp = W := by
  unfold World.setSp
  rw [← h, Function.update_eq_self]

theorem setHolder_setHolder (W : World) (i : Nat) (x y : PromiseHolder) :
    (W.setHolder i x).setHolder i y = W.setHolder i y := by
  unfold World.setHolder
  simp [Function.update_idem]

theorem setTask_self (W : World) (i : Nat) (t : Task)
    (h : W.tasks i = some t) : W.setTask i t = W := by
  unfold World.setTask
  rw [← h, Function.update_eq_self]

theorem modifyHolder_congr_id (W : World) (i : Nat) (f : PromiseHolder → PromiseHolder)
    (hf : ∀ ph, f ph = ph) : W.modifyHolder i f = W := by
  unfold World.modifyHolder
  cases h : W.holders i with
  | none => rfl
  | some ph =>
    show W.setHolder i (f ph) = W
    rw [hf]
    exact setHolder_self _ _ _ h

theorem modifyHolder_eq_self (W : World) (i : Nat) (ph : PromiseHolder)
    (h : W.holders i = some ph) (f : PromiseHolder → PromiseHolder) (hf : f ph = ph) :
    W.modifyHolder i f = W := by
  unfold World.modifyHolder
  rw [h]
  show W.setHolder i (f ph) = W
  rw [hf]
  exact setHolder_self _ _ _ h

theorem modifyHolder_of_setHolder (W : World) (i : Nat) (x : PromiseHolder)
    (f : PromiseHolder → PromiseHolder) :
    (W.setHolder i x).modifyHolder i f = W.setHolder i (f x) := by
  unfold World.modifyHolder
  rw [setHolder_holders_same]
  show (W.setHolder i x).setHolder i (f x) = W.setHolder i (f x)
  exact setHolder_setHolder ..

theorem retargetTasks_consistent (l : Nat) (ts : List Nat) : ∀ (W : World),
    (∀ t ∈ ts, ∀ tk, W.tasks t = some tk → tk.promiseHolder = l) →
    retargetTasks l W ts = W := by
  induction ts with
  | nil => intro W _; rfl
  | cons a ts ih =>
    intro W hc
    rw [retargetTasks]
    cases h : W.tasks a with
    | none => exact ih W (fun t ht tk htk => hc t (List.mem_cons_of_mem a ht) tk htk)
    | some tk =>
      have hph : tk.promiseHolder = l := hc a (List.mem_cons_self a ts) tk h
      have hrec : ({ tk with promiseHolder := l } : Task) = tk := by
        rw [← hph]
      show retargetTasks l (W.setTask a { tk with promiseHolder := l }) ts = W
      rw [hrec, setTask_self _ _ _ h]
      exact ih W (fun t ht tk' htk => hc t (List.mem_cons_of_mem a ht) tk' htk)

theorem retargetOwners_holders_ne (l : Nat) (os : List Nat) : ∀ (W : World) (j : Nat),
    j ≠ l → (retargetOwners l W os).holders j = W.holders j := by
  induction os with
  | nil => intro W j _; rfl
  | cons a os ih =>
    intro W j hj
    rw [retargetOwners, ih _ _ hj]
    cases h : W.sps a
    · rfl
    · rw [modifyHolder_holders_ne _ _ _ _ hj, setSp_holders]

theorem modifyHolder_isSome (W : World) (i j : Nat) (f : PromiseHolder → PromiseHolder) :
    ((W.modifyHolder i f).holders j).isSome = (W.holders j).isSome := by
  by_cases hj : j = i
  · subst hj
    cases h : W.holders j with
    | none => rw [modifyHolder_of_none _ _ _ h, h]
    | some ph =>
      rw [modifyHolder_holders_same _ _ _ _ h]
      rfl
  · rw [modifyHolder_holders_ne _ _ _ _ hj]

theorem retargetOwners_isSome (l : Nat) (os : List Nat) : ∀ (W : World) (j : Nat),
    ((retargetOwners l W os).holders j).isSome = (W.holders j).isSome := by
  induction os with
  | nil => intro W j; rfl
  | cons a os ih =>
    intro W j
    rw [retargetOwners, ih]
    cases h : W.sps a with
    | none => rfl
    | some sp =>
      exact (modifyHolder_isSome (W.setSp a ⟨l⟩) l j _).trans (by rw [setSp_holders])

theorem retargetOwners_rebuild (l : Nat) (os : List Nat) : ∀ (W : World) (ph : PromiseHolder),
    W.holders l = some ph → (∀ sp ∈ os, W.sps sp = some ⟨l⟩) →
    retargetOwners l W os = W.setHolder l { ph with owners := ph.owners ++ os } := by
  induction os with
  | nil =>
    intro W ph hW _
    rw [List.append_nil]
    exact (setHolder_self _ _ _ hW).symm
  | cons a os ih =>
    intro W ph hW hc
    rw [retargetOwners]
    have hsp : W.sps a = some ⟨l⟩ := hc a (List.mem_cons_self a os)
    rw [hsp]
    rw [setSp_self _ _ _ hsp]
    have hmod : W.modifyHolder l (fun h => { h with owners := h.owners ++ [a] }) =
        W.setHolder l { ph with owners := ph.owners ++ [a] } := by
      unfold World.modifyHolder
      rw [hW]
    rw [hmod]
    rw [ih _ { ph with owners := ph.owners ++ [a] } (setHolder_holders_same ..)
      (fun sp hsp' => by rw [setHolder_sps]; exact hc sp (List.mem_cons_of_mem a hsp'))]
    rw [setHolder_setHolder]
    have : (ph.owners ++ [a]) ++ os = ph.owners ++ a :: os := by
      rw [List.append_assoc, List.singleton_append]
    rw [this]

/-- C9 as the code actually behaves.  First part: `join(h, h)` on a live
holder whose tasks and owners are consistent rewrites the world to the same
holder with only its state forced to Resolved — value, pending queue, call
trace and (live) owner set are untouched, but the state is not, so the call
is not a no-op on a Pending or Rejected holder.  Second part: joining the
same pair a second time changes nothing at all — owner and task sets after
two joins equal those after one. -/
theorem c9_join_idempotence :
    (∀ (W : World) (h : Nat) (ph : PromiseHolder),
        W.holders h = some ph →
        (∀ t ∈ ph.pendingTasks, ∀ tk, W.tasks t = some tk → tk.promiseHolder = h) →
        (∀ sp ∈ ph.owners, W.sps sp = some ⟨h⟩) →
        joinM W h h = W.setHolder h { ph with state := TaskState.kResolved }) ∧
    (∀ (W : World) (l r : Nat) (phl phr : PromiseHolder), l ≠ r →
        W.holders l = some phl → W.holders r = some phr →
        joinM (joinM W l r) l r = joinM W l r) := by
  constructor
  · intro W h ph hW htk hown
    rw [joinM_eq_of_live W h h (by rw [hW]; rfl) (by rw [hW]; rfl)]
    have e1 : joinTasks W h h = W := by
      unfold joinTasks
      rw [if_pos rfl, holderTasks_of_some _ _ _ hW, retargetTasks_consistent _ _ _ htk]
    rw [e1]
    have e2 : joinStacks W h h = W := by
      unfold joinStacks
      rw [if_pos rfl]
    rw [e2]
    have e3 : joinShell W h = (W.setHolder h { ph with owners := [], state := .kResolved },
        ph.owners) := by
      show ((W.modifyHolder h (fun x => { x with owners := [] })).modifyHolder h
          (fun x => { x with state := TaskState.kResolved }), W.holderOwners h) = _
      rw [holderOwners_of_some _ _ _ hW]
      have hm1 : W.modifyHolder h (fun x => { x with owners := [] }) =
          W.setHolder h { ph with owners := [] } := by
        unfold World.modifyHolder
        rw [hW]
      rw [hm1, modifyHolder_of_setHolder]
    rw [e3]
    rw [retargetOwners_rebuild _ _ _ { ph with owners := [], state := .kResolved }
      (setHolder_holders_same ..)
      (fun sp hsp => by rw [setHolder_sps]; exact hown sp hsp)]
    rw [setHolder_setHolder]
    rfl
  · intro W l r phl phr hlr hl hr
    obtain ⟨h1l, h1r, h1o, h1t, h1s⟩ := joinTasks_spec W l r phl phr hlr hl hr
    obtain ⟨h2l, h2r, h2o, h2t, h2s⟩ := joinStacks_spec (joinTasks W l r) l r _ _ hlr h1l h1r
    obtain ⟨h3r, h3o, h3ow, h3t, h3s⟩ :=
      joinShell_spec (joinStacks (joinTasks W l r) l r) r _ h2r
    have hjoin := joinM_eq_of_live W l r (by rw [hl]; rfl) (by rw [hr]; rfl)
    have hWJr : (joinM W l r).holders r =
        some { phr with pendingTasks := [], callStack := [], owners := [], state := .kResolved } := by
      rw [hjoin, retargetOwners_holders_ne _ _ _ _ (fun hx => hlr hx.symm)]
      exact h3r
    have hWJlS : (((joinM W l r).holders l).isSome : Prop) := by
      rw [hjoin, retargetOwners_isSome]
      rw [h3o l hlr, h2l]
      rfl
    rw [joinM_eq_of_live (joinM W l r) l r hWJlS (by rw [hWJr]; rfl)]
    have e1 : joinTasks (joinM W l r) l r = joinM W l r := by
      unfold joinTasks
      rw [holderTasks_of_some _ _ _ hWJr, if_neg hlr]
      rw [show retargetTasks l (joinM W l r) [] = joinM W l r from rfl]
      rw [modifyHolder_congr_id (joinM W l r) l
        (fun x => { x with pendingTasks := x.pendingTasks ++ [] })
        (fun ph => by
          show ({ ph with pendingTasks := ph.pendingTasks ++ [] } : PromiseHolder) = ph
          rw [List.append_nil])]
      exact modifyHolder_eq_self _ _ _ hWJr (fun x => { x with pendingTasks := [] }) rfl
    rw [e1]
    have e2 : joinStacks (joinM W l r) l r = joinM W l r := by
      unfold joinStacks
      simp only [if_neg hlr, holderStack_of_some _ _ _ hWJr]
      rw [modifyHolder_congr_id (joinM W l r) l
        (fun x => { x with callStack := [] ++ x.callStack }) (fun ph => rfl)]
      exact modifyHolder_eq_self _ _ _ hWJr (fun x => { x with callStack := [] }) rfl
    rw [e2]
    have e3 : joinShell (joinM W l r) r = (joinM W l r, []) := by
      unfold joinShell
      show ((((joinM W l r).modifyHolder r (fun x => { x with owners := [] })).modifyHolder r
          (fun x => { x with state := TaskState.kResolved })), (joinM W l r).holderOwners r) = _
      rw [holderOwners_of_some _ _ _ hWJr]
      rw [modifyHolder_eq_self _ _ _ hWJr (fun x => { x with owners := [] }) rfl]
      rw [modifyHolder_eq_self _ _ _ hWJr (fun x => { x with state := TaskState.kResolved }) rfl]
    rw [e3]
    rfl

/-- C9 as frozen is refuted here: `join(h, h)` on the holder freshly created
by `newPromise` (state Pending) is not a no-op — it forces the holder's state
to Resolved. -/
theorem c9_counterexample :
    (newPromiseM 9 emptyWorld 0 .rb_nothing).1.holderState 0 = TaskState.kPending ∧
    (joinM (newPromiseM 9 emptyWorld 0 .rb_nothing).1 0 0).holderState 0 =
      TaskState.kResolved :=
  ⟨rfl, rfl⟩

/-- Witness for the amended C9 theorem at concrete worlds: one fresh holder
joined with itself, and two fresh holders joined twice. -/
theorem c9_join_idempotence_witness :
    (joinM (newPromiseM 9 emptyWorld 0 .rb_nothing).1 0 0 =
      (newPromiseM 9 emptyWorld 0 .rb_nothing).1.setHolder 0
        ⟨[1], [2], .kResolved, .vEmpty, []⟩) ∧
    (joinM (joinM (newPromiseM 9 (newPromiseM 9 emptyWorld 0 .rb_nothing).1 0
        .rb_nothing).1 0 4) 0 4 =
      joinM (newPromiseM 9 (newPromiseM 9 emptyWorld 0 .rb_nothing).1 0 .rb_nothing).1 0 4) :=
  ⟨c9_join_idempotence.1 _ 0 ⟨[1], [2], .kPending, .vEmpty, []⟩ rfl
    (by
      intro t ht tk htk
      rw [List.mem_singleton] at ht
      subst ht
      rw [show (newPromiseM 9 emptyWorld 0 .rb_nothing).1.tasks 2 =
          some ⟨.kPending, 0, 0, .cEmpty, .cEmpty⟩ from rfl] at htk
      injection htk with h
      subst h
      rfl)
    (by
      intro sp hsp
      rw [List.mem_singleton] at hsp
      subst hsp
      rfl),
   c9_join_idempotence.2 _ 0 4 ⟨[1], [2], .kPending, .vEmpty, []⟩
     ⟨[5], [6], .kPending, .vEmpty, []⟩ (by decide) rfl rfl⟩

/-- C10: a `Defer` whose bound task is no longer Pending is inert — both
`Defer::resolve` and `Defer::reject` return without touching the world, so
the holder's state and value stay as they are and no continuation runs; the
first settlement wins. -/
theorem c10_defer_settled_noop (fuel : Nat) (W : World) (d : DeferT) (loc : Nat)
    (arg : AnyVal) (tk : Task) (htk : W.tasks d.task = some tk)
    (hst : tk.state ≠ TaskState.kPending) :
    deferResolveM fuel W d loc arg = W ∧ deferRejectM fuel W d loc arg = W := by
  cases fuel with
  | zero => exact ⟨rfl, rfl⟩
  | succ f =>
    constructor
    · show (engineStep (engine f) W (.reqDeferResolve d loc arg)).1 = W
      simp only [engineStep, htk]
      rw [if_pos hst]
    · show (engineStep (engine f) W (.reqDeferReject d loc arg)).1 = W
      simp only [engineStep, htk]
      rw [if_pos hst]

/-- Witness for C10: the deferred created by `newPromise` whose body resolved
immediately; its task has already executed, so a later resolve or reject is a
no-op. -/
theorem c10_defer_settled_noop_witness :
    deferResolveM 9 (newPromiseM 9 emptyWorld 0 (.rb_resolve .vNull)).1 ⟨2, 3⟩ 0 (.vInt 5) =
      (newPromiseM 9 emptyWorld 0 (.rb_resolve .vNull)).1 ∧
    deferRejectM 9 (newPromiseM 9 emptyWorld 0 (.rb_resolve .vNull)).1 ⟨2, 3⟩ 0 (.vInt 5) =
      (newPromiseM 9 emptyWorld 0 (.rb_resolve .vNull)).1 :=
  c10_defer_settled_noop 9 _ ⟨2, 3⟩ 0 (.vInt 5) ⟨.kResolved, 0, 0, .cEmpty, .cEmpty⟩ rfl
    (by decide)

theorem trimStack_length_le_aux : ∀ (s : List CallRecord),
    (trimStack s).length ≤ PM_MAX_LOC := by
  intro s
  induction s with
  | nil =>
    rw [trimStack.eq_def]
    rw [if_pos (by norm_num [PM_MAX_LOC])]
    norm_num [PM_MAX_LOC]
  | cons a rest ih =>
    rw [trimStack.eq_def]
    by_cases h : (a :: rest).length ≤ PM_MAX_LOC
    · rw [if_pos h]
      exact h
    · rw [if_neg h]
      exact ih

/-- C8 as frozen is refuted here: two holders each driven to a full trace of
PM_MAX_LOC records, then fused by the `then(Promise)` overload; `join`
splices the right trace in front of the left one without trimming, so
immediately after the join the surviving holder carries more than
PM_MAX_LOC records. -/
theorem c8_counterexample :
    ((trimChain emptyWorld).1.holderStack 0).length = PM_MAX_LOC ∧
    ((trimChain (trimChain emptyWorld).1).1.holderStack 6).length = PM_MAX_LOC ∧
    PM_MAX_LOC <
      ((thenPromiseM 40 (trimChain (trimChain emptyWorld).1).1 1 7 0).holderStack 0).length :=
  ⟨rfl, rfl, by decide⟩

/-- C8 amended: the PM_MAX_LOC bound is maintained by the engine's trim loop
— after every `call` step a holder's trace has at most PM_MAX_LOC records —
while `join` splices the right holder's trace in front of the left one with
no trimming, so immediately after a join the left trace is exactly the
concatenation of the two traces (bounded only by their combined length)
until the next engine step on that holder trims it again. -/
theorem c8_trace_bound :
    (∀ s : List CallRecord, (trimStack s).length ≤ PM_MAX_LOC) ∧
    (∀ (W : World) (l r : Nat) (phl phr : PromiseHolder), l ≠ r →
      W.holders l = some phl → W.holders r = some phr →
      (joinM W l r).holderStack l = phr.callStack ++ phl.callStack ∧
      ((joinM W l r).holderStack l).length = phr.callStack.length + phl.callStack.length) := by
  constructor
  · intro s
    exact trimStack_length_le_aux s
  · intro W l r phl phr hlr hl hr
    obtain ⟨h1l, h1r, h1o, h1t, h1s⟩ := joinTasks_spec W l r phl phr hlr hl hr
    obtain ⟨h2l, h2r, h2o, h2t, h2s⟩ := joinStacks_spec (joinTasks W l r) l r _ _ hlr h1l h1r
    obtain ⟨h3r, h3o, h3ow, h3t, h3s⟩ :=
      joinShell_spec (joinStacks (joinTasks W l r) l r) r _ h2r
    have hstack : (joinM W l r).holderStack l = phr.callStack ++ phl.callStack := by
      rw [joinM_eq_of_live W l r (by rw [hl]; rfl) (by rw [hr]; rfl)]
      apply holderStack_of_map
      rw [retargetOwners_map_proj PromiseHolder.callStack (fun ph ow => rfl)]
      rw [h3o l hlr, h2l]
      rfl
    refine ⟨hstack, ?_⟩
    rw [hstack, List.length_append]
/-- Witness for C3 at a concrete world: two freshly created promises
(holders 0 and 4) fused by `join`. -/
theorem c3_join_effects_witness :
    (joinM (newPromiseM 9 (newPromiseM 9 emptyWorld 0 .rb_nothing).1 0
        .rb_nothing).1 0 4).holderTasks 0 = [2, 6] ∧
    (joinM (newPromiseM 9 (newPromiseM 9 emptyWorld 0 .rb_nothing).1 0
        .rb_nothing).1 0 4).holderState 4 = TaskState.kResolved :=
  ⟨(c3_join_effects _ 0 4 ⟨[1], [2], .kPending, .vEmpty, []⟩
      ⟨[5], [6], .kPending, .vEmpty, []⟩ (by decide) rfl rfl).2.1,
   (c3_join_effects _ 0 4 ⟨[1], [2], .kPending, .vEmpty, []⟩
      ⟨[5], [6], .kPending, .vEmpty, []⟩ (by decide) rfl rfl).2.2⟩

/-- Witness for the amended C8 theorem: the trim loop applied to a trace of
nine records, and a concrete `join` of the two fresh holders. -/
theorem c8_trace_bound_witness :
    (trimStack (List.replicate 9 ⟨0, 0⟩)).length ≤ PM_MAX_LOC ∧
    (joinM (newPromiseM 9 (newPromiseM 9 emptyWorld 0 .rb_nothing).1 0
        .rb_nothing).1 0 4).holderStack 0 = [] :=
  ⟨c8_trace_bound.1 _,
   (c8_trace_bound.2 _ 0 4 ⟨[1], [2], .kPending, .vEmpty, []⟩
      ⟨[5], [6], .kPending, .vEmpty, []⟩ (by decide) rfl rfl).1⟩

/-- C1 as frozen is refuted here: the same holder (identity 0) is observed
settled Resolved at rest (empty queue, engine idle), and after one more
`then` whose continuation throws it is observed settled Rejected at rest —
an observable Resolved-to-Rejected move over the holder's lifetime, and a
second settlement of a holder that had already settled once. -/
theorem c1_counterexample :
    resMidW.holderState 0 = TaskState.kResolved ∧
    resMidW.holderTasks 0 = [] ∧
    resThenThrowW.holderState 0 = TaskState.kRejected ∧
    resThenThrowW.holderTasks 0 = [] :=
  ⟨rfl, rfl, rfl, rfl⟩

/-- C4 as frozen is refuted here: on the Resolved settlement (value 1), a
type-mismatch from the matching `onResolved` continuation does not pass the
settlement through — the holder ends Rejected with the captured exception
payload, not Resolved with value 1 as it was before the task ran. -/
theorem c4_counterexample :
    (resBadCastW (.vInt 1)).holderState 0 = TaskState.kRejected ∧
    (resBadCastW (.vInt 1)).holderState 0 ≠ TaskState.kResolved ∧
    (resBadCastW (.vInt 1)).holderValue 0 = .vExc true .vEmpty :=
  ⟨rfl, by decide, rfl⟩

/-- C4 amended: the pass-through policy for a type-mismatch holds exactly in
the Rejected branch — an `onRejected` continuation that throws
`bad_any_cast` leaves the holder Rejected with its value unchanged, and the
next `onRejected` in the chain receives that same settlement (here it
returns its argument, so the chain ends Resolved with the original rejection
value `v`); in the Resolved branch the same mismatch instead rejects the
holder with the captured exception payload. -/
theorem c4_badcast_passthrough (v : AnyVal) (hv : v.isPromise = false) :
    ((rejChainW v).holderState 0 = TaskState.kResolved ∧
     (rejChainW v).holderValue 0 = v) ∧
    ((resBadCastW v).holderState 0 = TaskState.kRejected ∧
     (resBadCastW v).holderValue 0 = .vExc true .vEmpty) := by
  cases v
  case vPromise sp => simp [AnyVal.isPromise] at hv
  all_goals exact ⟨⟨rfl, rfl⟩, ⟨rfl, rfl⟩⟩

/-- Witness for the amended C4 theorem at the concrete rejection value 3. -/
theorem c4_badcast_passthrough_witness :
    ((rejChainW (.vInt 3)).holderState 0 = TaskState.kResolved ∧
     (rejChainW (.vInt 3)).holderValue 0 = .vInt 3) ∧
    ((resBadCastW (.vInt 3)).holderState 0 = TaskState.kRejected ∧
     (resBadCastW (.vInt 3)).holderValue 0 = .vExc true .vEmpty) :=
  c4_badcast_passthrough (.vInt 3) rfl

/-- C5 as frozen is refuted here: when the holder is Rejected with value 7
and the matching `onRejected` continuation throws the type-mismatch, the
holder stays Rejected with its previous value 7 — the value does not become
the thrown error payload. -/
theorem c5_counterexample :
    (rejBadCastW (.vInt 7)).holderState 0 = TaskState.kRejected ∧
    (rejBadCastW (.vInt 7)).holderValue 0 = .vInt 7 ∧
    (rejBadCastW (.vInt 7)).holderValue 0 ≠ .vExc true .vEmpty :=
  ⟨rfl, rfl, fun h => AnyVal.noConfusion h⟩

/-- C5 amended: a type-mismatch thrown during payload extraction rejects the
holder with the thrown error payload only when the matching continuation is
`onResolved`; when it is `onRejected`, the holder is restored to Rejected
and keeps its previous value. -/
theorem c5_badcast_reject (v : AnyVal) :
    ((resBadCastW v).holderState 0 = TaskState.kRejected ∧
     (resBadCastW v).holderValue 0 = .vExc true .vEmpty) ∧
    ((rejBadCastW v).holderState 0 = TaskState.kRejected ∧
     (rejBadCastW v).holderValue 0 = v) :=
  ⟨⟨rfl, rfl⟩, ⟨rfl, rfl⟩⟩

/-- C7: `all` on the empty input list answers with `resolve(loc)`: the
returned handle designates a holder that is already Resolved, carries the
empty sequence of results as its value, and has no pending work left. -/
theorem c7_all_empty (loc : Nat) :
    (allM 30 emptyWorld loc []).1.spState (allM 30 emptyWorld loc []).2 =
      TaskState.kResolved ∧
    (allM 30 emptyWorld loc []).1.spValue (allM 30 emptyWorld loc []).2 = .vVec [] ∧
    (allM 30 emptyWorld loc []).1.spTasks (allM 30 emptyWorld loc []).2 = [] :=
  ⟨rfl, rfl, rfl⟩
theorem settleOrJoin_nonpromise (W : World) (hid : Nat) (v : AnyVal)
    (hv : v.isPromise = false) :
    settleOrJoin W hid v =
      (W.modifyHolder hid (fun h => { h with value := v, state := .kResolved }), hid) := by
  cases v <;> first
    | rfl
    | (exfalso; rw [AnyVal.isPromise] at hv; cases hv)

theorem engine_call_open (f : Nat) (W W4 W5 : World) (loc t hid : Nat) (tk : Task)
    (ph : PromiseHolder) (rest : List Nat)
    (htk : W.tasks t = some tk) (hhid : tk.promiseHolder = hid)
    (hts : tk.state = TaskState.kPending)
    (hph : W.holders hid = some ph) (hqs : ph.pendingTasks = t :: rest)
    (hset : ph.state ≠ TaskState.kPending)
    (hW4 : W4 =
      (let W1 := W.modifyHolder hid (fun h => { h with pendingTasks := h.pendingTasks.tail })
       let s1 := W1.serial
       let W2 := { W1 with serial := s1 + 2 }
       let W3 := W2.modifyHolder hid (fun h =>
         { h with callStack := trimStack (h.callStack ++ [⟨loc, s1⟩, ⟨tk.loc, s1 + 1⟩]) })
       W3.setTask t { tk with state := ph.state }))
    (hW5 : W5 = W4.modifyHolder hid (fun h => { h with state := .kPending })) :
    engine (f+1) W (.reqCall loc t) =
      (let res :=
         if ph.state = TaskState.kResolved then
           if tk.onResolved.isEmptyOrNull then (W4, hid)
           else
             let ev := engine f W5 (.reqEval tk.onResolved (W5.holderValue hid) loc)
             let out := match ev.2 with
               | .outEval o => o
               | _ => .ret .vEmpty
             match out with
             | .ret v => settleOrJoin ev.1 hid v
             | .throwBadCast =>
               (ev.1.modifyHolder hid (fun h =>
                 { h with value := .vExc true .vEmpty, state := .kRejected }), hid)
             | .throwOther e =>
               (ev.1.modifyHolder hid (fun h =>
                 { h with value := .vExc false e, state := .kRejected }), hid)
         else
           if tk.onRejected.isEmptyOrNull then (W4, hid)
           else
             let ev := engine f W5 (.reqEval tk.onRejected (W5.holderValue hid) loc)
             let out := match ev.2 with
               | .outEval o => o
               | _ => .ret .vEmpty
             match out with
             | .ret v => settleOrJoin ev.1 hid v
             | .throwBadCast =>
               (ev.1.modifyHolder hid (fun h => { h with state := .kRejected }), hid)
             | .throwOther e =>
               (ev.1.modifyHolder hid (fun h =>
                 { h with value := .vExc false e, state := .kRejected }), hid)
       let W8 :=
         match res.1.tasks t with
         | some tt => res.1.setTask t { tt with onResolved := .cEmpty, onRejected := .cEmpty }
         | none => res.1
       match W8.holderTasks res.2 with
       | [] => (W8, .outTrace [t])
       | t2 :: _ =>
         let r2 := engine f W8 (.reqCall loc t2)
         let tr2 := match r2.2 with
           | .outTrace tr => tr
           | _ => []
         (r2.1, .outTrace (t :: tr2))) := by
  subst hW5
  subst hW4
  show engineStep (engine f) W (.reqCall loc t) = _
  simp only [engineStep, htk, hhid, hph, hts, hqs, if_neg hset]
  rw [if_neg (by decide : ¬ (TaskState.kPending ≠ TaskState.kPending))]
  rw [if_neg (by simp : ¬ ((t :: rest).head? ≠ some t))]

theorem engine_eval_basic (f : Nat) (W : World) (c : Callable) (arg : AnyVal)
    (loc : Nat) (hc : c.basic = true) :
    engine f W (.reqEval c arg loc) = (W, .outEval (evalCbBase W c arg).2) := by
  cases f <;> cases c <;> first | rfl | (exact Bool.noConfusion hc)

theorem modifyHolder_serial (W : World) (i : Nat) (f : PromiseHolder → PromiseHolder) :
    (W.modifyHolder i f).serial = W.serial := by
  unfold World.modifyHolder
  cases W.holders i <;> rfl

theorem setSp_sps_same (W : World) (i : Nat) (sp : SharedPromise) :
    (W.setSp i sp).sps i = some sp := Function.update_same _ _ _

theorem spState_of_sp (W : World) (spId : Nat) (s : SharedPromise)
    (h : W.sps spId = some s) : W.spState spId = W.holderState s.promiseHolder := by
  unfold World.spState
  rw [h]
  rfl

theorem spValue_of_sp (W : World) (spId : Nat) (s : SharedPromise)
    (h : W.sps spId = some s) : W.spValue spId = W.holderValue s.promiseHolder := by
  unfold World.spValue
  rw [h]
  rfl

theorem spTasks_of_sp (W : World) (spId : Nat) (s : SharedPromise)
    (h : W.sps spId = some s) : W.spTasks spId = W.holderTasks s.promiseHolder := by
  unfold World.spTasks
  rw [h]
  rfl

theorem retargetOwners_single (l spo : Nat) (W : World) (s0 : SharedPromise)
    (h : W.sps spo = some s0) :
    retargetOwners l W [spo] =
      (W.setSp spo ⟨l⟩).modifyHolder l (fun h => { h with owners := h.owners ++ [spo] }) := by
  have h0 : retargetOwners l W [spo] = retargetOwners l
      (match W.sps spo with
       | some _ => (W.setSp spo ⟨l⟩).modifyHolder l
           (fun h => { h with owners := h.owners ++ [spo] })
       | none => W) [] := rfl
  rw [h0, h]
  rfl

/-- Joint description of `join(l, r)` when the right holder has exactly one
owner: the owner's SharedPromise is retargeted to the left holder, the left
holder accumulates the spliced queue, trace and owner, and the task map is
the retargeting of the right queue's tasks. -/
theorem joinM_reads (W : World) (l r spo : Nat) (phl phr : PromiseHolder)
    (s0 : SharedPromise) (hlr : l ≠ r) (hl : W.holders l = some phl)
    (hr : W.holders r = some phr) (ho : phr.owners = [spo])
    (hso : W.sps spo = some s0) :
    (joinM W l r).sps spo = some ⟨l⟩ ∧
    (joinM W l r).holders l = some { phl with
        owners := phl.owners ++ [spo]
        pendingTasks := phl.pendingTasks ++ phr.pendingTasks
        callStack := phr.callStack ++ phl.callStack } ∧
    (joinM W l r).tasks = (retargetTasks l W phr.pendingTasks).tasks := by
  obtain ⟨h1l, h1r, h1o, h1t, h1s⟩ := joinTasks_spec W l r phl phr hlr hl hr
  obtain ⟨h2l, h2r, h2o, h2t, h2s⟩ := joinStacks_spec _ l r _ _ hlr h1l h1r
  obtain ⟨h3r, h3o, h3ow, h3t, h3s⟩ := joinShell_spec _ r _ h2r
  have hlive_l : (W.holders l).isSome := by rw [hl]; rfl
  have hlive_r : (W.holders r).isSome := by rw [hr]; rfl
  rw [joinM_eq_of_live W l r hlive_l hlive_r]
  have hos : (joinShell (joinStacks (joinTasks W l r) l r) r).2 = [spo] := by
    rw [h3ow]
    exact ho
  rw [hos]
  have hsps : (joinShell (joinStacks (joinTasks W l r) l r) r).1.sps spo = some s0 := by
    rw [h3s, h2s, h1s]
    exact hso
  rw [retargetOwners_single l spo _ s0 hsps]
  refine ⟨?_, ?_, ?_⟩
  · rw [modifyHolder_sps, setSp_sps_same]
  · have hWl : ((joinShell (joinStacks (joinTasks W l r) l r) r).1.setSp spo
        ⟨l⟩).holders l = some { phl with
          pendingTasks := phl.pendingTasks ++ phr.pendingTasks
          callStack := phr.callStack ++ phl.callStack } := by
      rw [setSp_holders, h3o l hlr]
      exact h2l
    rw [modifyHolder_holders_same _ _ _ _ hWl]
  · rw [modifyHolder_tasks, setSp_tasks, h3t, h2t, h1t]


theorem engine_then_open (f : Nat) (W W2 : World) (spId loc tid : Nat)
    (sp : SharedPromise) (onRes onRej : Callable)
    (hsp : W.sps spId = some sp) (htid : W.nextId = tid)
    (hW2 : W2 = ({ W with
        nextId := W.nextId + 1
        tasks := Function.update W.tasks tid
          (some ⟨.kPending, sp.promiseHolder, loc, onRes, onRej⟩) }).modifyHolder
      sp.promiseHolder (fun h => { h with pendingTasks := h.pendingTasks ++ [tid] })) :
    engine (f+1) W (.reqThen spId loc onRes onRej) =
      ((engine f W2 (.reqCall loc tid)).1, .outTask tid) := by
  subst htid
  subst hW2
  show engineStep (engine f) W (.reqThen spId loc onRes onRej) = _
  simp only [engineStep, hsp]

theorem engine_call_pending (f : Nat) (W : World) (loc t : Nat) (tk : Task)
    (ph : PromiseHolder) (htk : W.tasks t = some tk)
    (hts : tk.state = TaskState.kPending)
    (hph : W.holders tk.promiseHolder = some ph)
    (hst : ph.state = TaskState.kPending) :
    engine f W (.reqCall loc t) = (W, .outTrace []) := by
  cases f with
  | zero => rfl
  | succ f =>
    show engineStep (engine f) W (.reqCall loc t) = _
    simp only [engineStep, htk, hph, hts, hst]
    rw [if_pos trivial, ite_self]

theorem engine_deferResolve_open (f : Nat) (W W1 : World) (d : DeferT) (loc : Nat)
    (arg : AnyVal) (tk : Task) (sp : SharedPromise)
    (htk : W.tasks d.task = some tk) (hts : tk.state = TaskState.kPending)
    (hsp : W.sps d.sharedPromise = some sp)
    (hW1 : W1 = W.modifyHolder sp.promiseHolder
      (fun h => { h with state := .kResolved, value := arg })) :
    engine (f+1) W (.reqDeferResolve d loc arg) =
      ((engine f W1 (.reqCall loc d.task)).1, .outUnit) := by
  subst hW1
  show engineStep (engine f) W (.reqDeferResolve d loc arg) = _
  simp only [engineStep, htk, hts, hsp]
  rw [if_neg (by decide : ¬ (TaskState.kPending ≠ TaskState.kPending))]

theorem engine_deferReject_open (f : Nat) (W W1 : World) (d : DeferT) (loc : Nat)
    (arg : AnyVal) (tk : Task) (sp : SharedPromise)
    (htk : W.tasks d.task = some tk) (hts : tk.state = TaskState.kPending)
    (hsp : W.sps d.sharedPromise = some sp)
    (hW1 : W1 = W.modifyHolder sp.promiseHolder
      (fun h => { h with state := .kRejected, value := arg })) :
    engine (f+1) W (.reqDeferReject d loc arg) =
      ((engine f W1 (.reqCall loc d.task)).1, .outUnit) := by
  subst hW1
  show engineStep (engine f) W (.reqDeferReject d loc arg) = _
  simp only [engineStep, htk, hts, hsp]
  rw [if_neg (by decide : ¬ (TaskState.kPending ≠ TaskState.kPending))]

theorem engine_newPromise_open (f : Nat) (W W1 W2 W3 W4 : World) (loc : Nat)
    (rb : RunBeh) (tid : Nat) (tt : Task)
    (hW1 : W1 = { W with
        nextId := W.nextId + 2
        holders := Function.update W.holders W.nextId
          (some ⟨[W.nextId + 1], [], .kPending, .vEmpty, []⟩)
        sps := Function.update W.sps (W.nextId + 1) (some ⟨W.nextId⟩) })
    (hr : engine f W1 (.reqThen (W.nextId + 1) loc .cEmpty .cEmpty) = (W2, .outTask tid))
    (htt : W2.tasks tid = some tt)
    (hW3 : W3 = { W2 with
        nextId := W2.nextId + 1
        sps := Function.update W2.sps W2.nextId (some ⟨tt.promiseHolder⟩) })
    (hW4 : (match rb with
            | RunBeh.rb_nothing => W3
            | RunBeh.rb_resolve v => (engine f W3 (.reqDeferResolve ⟨tid, W2.nextId⟩ loc v)).1
            | RunBeh.rb_reject v => (engine f W3 (.reqDeferReject ⟨tid, W2.nextId⟩ loc v)).1
            | RunBeh.rb_throw e =>
              (engine f W3 (.reqDeferReject ⟨tid, W2.nextId⟩ loc (.vExc false e))).1
            | RunBeh.rb_allAttach ps cell =>
              (engine f W3 (.reqAttachAll loc ps 0 cell ⟨tid, W2.nextId⟩)).1) = W4) :
    engine (f+1) W (.reqNewPromise loc rb) =
      (W4, .outPromise (W.nextId + 1) ⟨tid, W2.nextId⟩) := by
  subst hW4
  subst hW3
  subst hW1
  show engineStep (engine f) W (.reqNewPromise loc rb) = _
  simp only [engineStep, hr, htt]

theorem newNothing_run :
    engine 7 emptyWorld (.reqNewPromise 0 .rb_nothing) = (c6N4, .outPromise 1 ⟨2, 3⟩) := by
  have h1 : engine 6 c6N1 (.reqThen 1 0 .cEmpty .cEmpty) = (c6N3, .outTask 2) := by
    rw [engine_then_open 5 c6N1 c6N3 1 0 2 ⟨0⟩ .cEmpty .cEmpty rfl rfl rfl]
    rw [engine_call_pending 5 c6N3 0 2 ⟨.kPending, 0, 0, .cEmpty, .cEmpty⟩
      ⟨[1], [2], .kPending, .vEmpty, []⟩ rfl rfl rfl rfl]
  rw [engine_newPromise_open 6 emptyWorld c6N1 c6N3 c6N4 c6N4 0 .rb_nothing 2
    ⟨.kPending, 0, 0, .cEmpty, .cEmpty⟩ rfl h1 rfl rfl rfl]
  rfl

theorem hET : Callable.cEmpty.isEmptyOrNull = true := rfl

theorem deferResolve_run (v : AnyVal) :
    engine 7 c6N4 (.reqDeferResolve ⟨2, 3⟩ 0 v) = (c6S v, .outUnit) := by
  rw [engine_deferResolve_open 6 c6N4 (c6D1 v) ⟨2, 3⟩ 0 v
    ⟨.kPending, 0, 0, .cEmpty, .cEmpty⟩ ⟨0⟩ rfl rfl rfl rfl]
  have hcall : engine 6 (c6D1 v) (.reqCall 0 2) =
      ((c6A4 v).setTask 2 ⟨.kResolved, 0, 0, .cEmpty, .cEmpty⟩, .outTrace [2]) := by
    show engine (5+1) (c6D1 v) (.reqCall 0 2) = _
    rw [engine_call_open 5 (c6D1 v) (c6A4 v)
      ((c6A4 v).modifyHolder 0 (fun h => { h with state := .kPending })) 0 2 0 _ _ []
      (rfl : (c6D1 v).tasks 2 = some ⟨.kPending, 0, 0, .cEmpty, .cEmpty⟩) rfl rfl
      (rfl : (c6D1 v).holders 0 = some ⟨[1], [2], .kResolved, v, []⟩) rfl
      (fun hh => TaskState.noConfusion hh) rfl rfl]
    have hA4t2 : (c6A4 v).tasks 2 = some ⟨.kResolved, 0, 0, .cEmpty, .cEmpty⟩ := rfl
    have hSq : ((c6A4 v).setTask 2
        (⟨.kResolved, 0, 0, .cEmpty, .cEmpty⟩ : Task)).holderTasks 0 = [] := rfl
    simp only [hET, reduceIte, hA4t2, hSq]
  rw [hcall]
  rfl

theorem c6ResL1 (v : AnyVal) (cb : CbBeh) :
    finallyResW v cb = (engine 6 (c6ResB v cb) (.reqCall 0 4)).1 := by
  have hP : newPromiseM 7 emptyWorld 0 .rb_nothing = (c6N4, 1, ⟨2, 3⟩) := by
    simp only [newPromiseM, newNothing_run]
  have hA : deferResolveM 7 c6N4 ⟨2, 3⟩ 0 v = c6S v := by
    simp only [deferResolveM, deferResolve_run]
  have hThen : engine 7 (c6S v) (.reqThen 1 0 (.cFinallyRes cb) (.cFinallyRej cb)) =
      ((engine 6 (c6ResB v cb) (.reqCall 0 4)).1, .outTask 4) := by
    rw [engine_then_open 6 (c6S v) (c6ResB v cb) 1 0 4 ⟨0⟩
      (.cFinallyRes cb) (.cFinallyRej cb) rfl rfl rfl]
  show (thenCbM 7 (deferResolveM 7 (newPromiseM 7 emptyWorld 0 .rb_nothing).1
    (newPromiseM 7 emptyWorld 0 .rb_nothing).2.2 0 v)
    (newPromiseM 7 emptyWorld 0 .rb_nothing).2.1 0
    (.cFinallyRes cb) (.cFinallyRej cb)).1 = _
  simp only [hP, hA, thenCbM, hThen]

theorem newResolve_run (v : AnyVal) (cb : CbBeh) :
    engine 4 (c6ResC v cb) (.reqNewPromise 0 (.rb_resolve v)) =
      (c6ResD v cb, .outPromise 6 ⟨7, 8⟩) := by
  have h1 : engine 3 (c6NE1 v cb) (.reqThen 6 0 .cEmpty .cEmpty) =
      (c6NE3 v cb, .outTask 7) := by
    rw [engine_then_open 2 (c6NE1 v cb) (c6NE3 v cb) 6 0 7 ⟨5⟩ .cEmpty .cEmpty rfl rfl rfl]
    rw [engine_call_pending 2 (c6NE3 v cb) 0 7 ⟨.kPending, 5, 0, .cEmpty, .cEmpty⟩
      ⟨[6], [7], .kPending, .vEmpty, []⟩ rfl rfl rfl rfl]
  have h2 : engine 3 (c6NE4 v cb) (.reqDeferResolve ⟨7, 8⟩ 0 v) =
      (c6ResD v cb, .outUnit) := by
    rw [engine_deferResolve_open 2 (c6NE4 v cb) (c6DR1 v cb) ⟨7, 8⟩ 0 v
      ⟨.kPending, 5, 0, .cEmpty, .cEmpty⟩ ⟨5⟩ rfl rfl rfl rfl]
    have hcall : engine 2 (c6DR1 v cb) (.reqCall 0 7) =
        ((c6A7 v cb).setTask 7 ⟨.kResolved, 5, 0, .cEmpty, .cEmpty⟩, .outTrace [7]) := by
      show engine (1+1) (c6DR1 v cb) (.reqCall 0 7) = _
      rw [engine_call_open 1 (c6DR1 v cb) (c6A7 v cb)
        ((c6A7 v cb).modifyHolder 5 (fun h => { h with state := .kPending })) 0 7 5 _ _ []
        (rfl : (c6DR1 v cb).tasks 7 = some ⟨.kPending, 5, 0, .cEmpty, .cEmpty⟩) rfl rfl
        (rfl : (c6DR1 v cb).holders 5 = some ⟨[6], [7], .kResolved, v, []⟩) rfl
        (fun hh => TaskState.noConfusion hh) rfl rfl]
      have hA7t7 : (c6A7 v cb).tasks 7 = some ⟨.kResolved, 5, 0, .cEmpty, .cEmpty⟩ := rfl
      have hSq : ((c6A7 v cb).setTask 7
          (⟨.kResolved, 5, 0, .cEmpty, .cEmpty⟩ : Task)).holderTasks 5 = [] := rfl
      simp only [hET, reduceIte, hA7t7, hSq]
    rw [hcall]
    rfl
  rw [engine_newPromise_open 3 (c6ResC v cb) (c6NE1 v cb) (c6NE3 v cb) (c6NE4 v cb)
    (c6ResD v cb) 0 (.rb_resolve v) 7 ⟨.kPending, 5, 0, .cEmpty, .cEmpty⟩ rfl h1 rfl rfl
    (by show (engine 3 (c6NE4 v cb) (.reqDeferResolve ⟨7, 8⟩ 0 v)).1 = c6ResD v cb
        rw [h2])]
  rfl

theorem c6ResEval (v : AnyVal) (cb : CbBeh)
    (hrb : (match cb with
            | CbBeh.cbThrow e => RunBeh.rb_throw e
            | _ => RunBeh.rb_resolve v) = RunBeh.rb_resolve v) :
    engine 5 (c6ResC v cb) (.reqEval (.cFinallyRes cb) v 0) =
      (c6ResD v cb, .outEval (.ret (.vPromise 6))) := by
  have hout : (engine 4 (c6ResC v cb) (.reqNewPromise 0 (.rb_resolve v))).2 =
      .outPromise 6 ⟨7, 8⟩ := by
    rw [newResolve_run]
  have hfst : (engine 4 (c6ResC v cb) (.reqNewPromise 0 (.rb_resolve v))).1 =
      c6ResD v cb := by
    rw [newResolve_run]
  show engineStep (engine 4) (c6ResC v cb) (.reqEval (.cFinallyRes cb) v 0) = _
  simp only [engineStep, hrb, hout, hfst]

set_option maxHeartbeats 1000000 in
theorem c6ResL2 (v : AnyVal) (cb : CbBeh)
    (hrb : (match cb with
            | CbBeh.cbThrow e => RunBeh.rb_throw e
            | _ => RunBeh.rb_resolve v) = RunBeh.rb_resolve v) :
    engine 6 (c6ResB v cb) (.reqCall 0 4) =
      ((joinM (c6ResD v cb) 5 0).setTask 4
        ⟨.kResolved, 0, 0, .cEmpty, .cEmpty⟩, .outTrace [4]) := by
  have hph : (c6ResB v cb).holders 0 =
      some ⟨[1], [4], .kResolved, v, [⟨0, 0⟩, ⟨0, 1⟩]⟩ := rfl
  have htk : (c6ResB v cb).tasks 4 =
      some ⟨.kPending, 0, 0, .cFinallyRes cb, .cFinallyRej cb⟩ := rfl
  have hemp : (Callable.cFinallyRes cb).isEmptyOrNull = false := rfl
  have hset : ((⟨[1], [4], .kResolved, v, [⟨0, 0⟩, ⟨0, 1⟩]⟩ : PromiseHolder)).state ≠ TaskState.kPending :=
    fun hh => TaskState.noConfusion hh
  have hv5 : (c6ResC v cb).holderValue 0 = v := rfl
  have hEval := c6ResEval v cb hrb
  have hsps6 : (c6ResD v cb).sps 6 = some ⟨5⟩ := rfl
  have hD5 : (c6ResD v cb).holders 5 =
      some ⟨[6], [], .kResolved, v, [⟨0, 4⟩, ⟨0, 5⟩]⟩ := rfl
  have hD0 : (c6ResD v cb).holders 0 =
      some ⟨[1], [], .kPending, v, [⟨0, 0⟩, ⟨0, 1⟩, ⟨0, 2⟩, ⟨0, 3⟩]⟩ := rfl
  have hDs1 : (c6ResD v cb).sps 1 = some ⟨0⟩ := rfl
  have hDt4 : (c6ResD v cb).tasks 4 =
      some ⟨.kResolved, 0, 0, .cFinallyRes cb, .cFinallyRej cb⟩ := rfl
  obtain ⟨hj1, hj2, hj3⟩ := joinM_reads (c6ResD v cb) 5 0 1 _ _ ⟨0⟩
    (by decide) hD5 hD0 rfl hDs1
  have hjt4 : (joinM (c6ResD v cb) 5 0).tasks 4 =
      some ⟨.kResolved, 0, 0, .cFinallyRes cb, .cFinallyRej cb⟩ := by
    rw [hj3]
    exact hDt4
  have hq5 : ((joinM (c6ResD v cb) 5 0).setTask 4
      (⟨.kResolved, 0, 0, .cEmpty, .cEmpty⟩ : Task)).holderTasks 5 = [] :=
    holderTasks_of_some _ _ _
      ((congrFun (setTask_holders (joinM (c6ResD v cb) 5 0) 4
        ⟨.kResolved, 0, 0, .cEmpty, .cEmpty⟩) 5).trans hj2)
  show engine (5+1) (c6ResB v cb) (.reqCall 0 4) = _
  rw [engine_call_open 5 (c6ResB v cb) (c6ResB4 v cb) (c6ResC v cb) 0 4 0
    _ _ [] htk rfl rfl hph rfl hset rfl rfl]
  simp only [hemp, Bool.false_eq_true, if_false, reduceIte, hv5, hEval]
  simp only [settleOrJoin, hsps6]
  simp only [hjt4, hq5]

theorem deferReject_run (v : AnyVal) :
    engine 7 c6N4 (.reqDeferReject ⟨2, 3⟩ 0 v) = (c6T v, .outUnit) := by
  rw [engine_deferReject_open 6 c6N4 (c6E1 v) ⟨2, 3⟩ 0 v
    ⟨.kPending, 0, 0, .cEmpty, .cEmpty⟩ ⟨0⟩ rfl rfl rfl rfl]
  have hcall : engine 6 (c6E1 v) (.reqCall 0 2) =
      ((c6E4 v).setTask 2 ⟨.kRejected, 0, 0, .cEmpty, .cEmpty⟩, .outTrace [2]) := by
    show engine (5+1) (c6E1 v) (.reqCall 0 2) = _
    rw [engine_call_open 5 (c6E1 v) (c6E4 v)
      ((c6E4 v).modifyHolder 0 (fun h => { h with state := .kPending })) 0 2 0 _ _ []
      (rfl : (c6E1 v).tasks 2 = some ⟨.kPending, 0, 0, .cEmpty, .cEmpty⟩) rfl rfl
      (rfl : (c6E1 v).holders 0 = some ⟨[1], [2], .kRejected, v, []⟩) rfl
      (fun hh => TaskState.noConfusion hh) rfl rfl]
    have hne : (TaskState.kRejected = TaskState.kResolved) = False :=
      eq_false (fun hh => TaskState.noConfusion hh)
    have hE4t2 : (c6E4 v).tasks 2 = some ⟨.kRejected, 0, 0, .cEmpty, .cEmpty⟩ := rfl
    have hSq : ((c6E4 v).setTask 2
        (⟨.kRejected, 0, 0, .cEmpty, .cEmpty⟩ : Task)).holderTasks 0 = [] := rfl
    simp only [hne, if_false, hET, reduceIte, hE4t2, hSq]
  rw [hcall]
  rfl

theorem c6RejL1 (v : AnyVal) (cb : CbBeh) :
    finallyRejW v cb = (engine 6 (c6RejB v cb) (.reqCall 0 4)).1 := by
  have hP : newPromiseM 7 emptyWorld 0 .rb_nothing = (c6N4, 1, ⟨2, 3⟩) := by
    simp only [newPromiseM, newNothing_run]
  have hA : deferRejectM 7 c6N4 ⟨2, 3⟩ 0 v = c6T v := by
    simp only [deferRejectM, deferReject_run]
  have hThen : engine 7 (c6T v) (.reqThen 1 0 (.cFinallyRes cb) (.cFinallyRej cb)) =
      ((engine 6 (c6RejB v cb) (.reqCall 0 4)).1, .outTask 4) := by
    rw [engine_then_open 6 (c6T v) (c6RejB v cb) 1 0 4 ⟨0⟩
      (.cFinallyRes cb) (.cFinallyRej cb) rfl rfl rfl]
  show (thenCbM 7 (deferRejectM 7 (newPromiseM 7 emptyWorld 0 .rb_nothing).1
    (newPromiseM 7 emptyWorld 0 .rb_nothing).2.2 0 v)
    (newPromiseM 7 emptyWorld 0 .rb_nothing).2.1 0
    (.cFinallyRes cb) (.cFinallyRej cb)).1 = _
  simp only [hP, hA, thenCbM, hThen]

theorem newReject_run (v : AnyVal) (cb : CbBeh) :
    engine 4 (c6RejC v cb) (.reqNewPromise 0 (.rb_reject v)) =
      (c6RejD v cb, .outPromise 6 ⟨7, 8⟩) := by
  have h1 : engine 3 (c6RejNE1 v cb) (.reqThen 6 0 .cEmpty .cEmpty) =
      (c6RejNE3 v cb, .outTask 7) := by
    rw [engine_then_open 2 (c6RejNE1 v cb) (c6RejNE3 v cb) 6 0 7 ⟨5⟩ .cEmpty .cEmpty rfl rfl rfl]
    rw [engine_call_pending 2 (c6RejNE3 v cb) 0 7 ⟨.kPending, 5, 0, .cEmpty, .cEmpty⟩
      ⟨[6], [7], .kPending, .vEmpty, []⟩ rfl rfl rfl rfl]
  have h2 : engine 3 (c6RejNE4 v cb) (.reqDeferReject ⟨7, 8⟩ 0 v) =
      (c6RejD v cb, .outUnit) := by
    rw [engine_deferReject_open 2 (c6RejNE4 v cb) (c6RejDR1 v cb) ⟨7, 8⟩ 0 v
      ⟨.kPending, 5, 0, .cEmpty, .cEmpty⟩ ⟨5⟩ rfl rfl rfl rfl]
    have hcall : engine 2 (c6RejDR1 v cb) (.reqCall 0 7) =
        ((c6RejA7 v cb).setTask 7 ⟨.kRejected, 5, 0, .cEmpty, .cEmpty⟩, .outTrace [7]) := by
      show engine (1+1) (c6RejDR1 v cb) (.reqCall 0 7) = _
      rw [engine_call_open 1 (c6RejDR1 v cb) (c6RejA7 v cb)
        ((c6RejA7 v cb).modifyHolder 5 (fun h => { h with state := .kPending })) 0 7 5 _ _ []
        (rfl : (c6RejDR1 v cb).tasks 7 = some ⟨.kPending, 5, 0, .cEmpty, .cEmpty⟩) rfl rfl
        (rfl : (c6RejDR1 v cb).holders 5 = some ⟨[6], [7], .kRejected, v, []⟩) rfl
        (fun hh => TaskState.noConfusion hh) rfl rfl]
      have hne : (TaskState.kRejected = TaskState.kResolved) = False :=
        eq_false (fun hh => TaskState.noConfusion hh)
      have hA7t7 : (c6RejA7 v cb).tasks 7 = some ⟨.kRejected, 5, 0, .cEmpty, .cEmpty⟩ := rfl
      have hSq : ((c6RejA7 v cb).setTask 7
          (⟨.kRejected, 5, 0, .cEmpty, .cEmpty⟩ : Task)).holderTasks 5 = [] := rfl
      simp only [hne, if_false, hET, reduceIte, hA7t7, hSq]
    rw [hcall]
    rfl
  rw [engine_newPromise_open 3 (c6RejC v cb) (c6RejNE1 v cb) (c6RejNE3 v cb) (c6RejNE4 v cb)
    (c6RejD v cb) 0 (.rb_reject v) 7 ⟨.kPending, 5, 0, .cEmpty, .cEmpty⟩ rfl h1 rfl rfl
    (by show (engine 3 (c6RejNE4 v cb) (.reqDeferReject ⟨7, 8⟩ 0 v)).1 = c6RejD v cb
        rw [h2])]
  rfl

theorem c6RejEval (v : AnyVal) (cb : CbBeh)
    (hrb : (match cb with
            | CbBeh.cbThrow e => RunBeh.rb_throw e
            | _ => RunBeh.rb_reject v) = RunBeh.rb_reject v) :
    engine 5 (c6RejC v cb) (.reqEval (.cFinallyRej cb) v 0) =
      (c6RejD v cb, .outEval (.ret (.vPromise 6))) := by
  have hout : (engine 4 (c6RejC v cb) (.reqNewPromise 0 (.rb_reject v))).2 =
      .outPromise 6 ⟨7, 8⟩ := by
    rw [newReject_run]
  have hfst : (engine 4 (c6RejC v cb) (.reqNewPromise 0 (.rb_reject v))).1 =
      c6RejD v cb := by
    rw [newReject_run]
  show engineStep (engine 4) (c6RejC v cb) (.reqEval (.cFinallyRej cb) v 0) = _
  simp only [engineStep, hrb, hout, hfst]

set_option maxHeartbeats 1000000 in
theorem c6RejL2 (v : AnyVal) (cb : CbBeh)
    (hrb : (match cb with
            | CbBeh.cbThrow e => RunBeh.rb_throw e
            | _ => RunBeh.rb_reject v) = RunBeh.rb_reject v) :
    engine 6 (c6RejB v cb) (.reqCall 0 4) =
      ((joinM (c6RejD v cb) 5 0).setTask 4
        ⟨.kRejected, 0, 0, .cEmpty, .cEmpty⟩, .outTrace [4]) := by
  have hph : (c6RejB v cb).holders 0 =
      some ⟨[1], [4], .kRejected, v, [⟨0, 0⟩, ⟨0, 1⟩]⟩ := rfl
  have htk : (c6RejB v cb).tasks 4 =
      some ⟨.kPending, 0, 0, .cFinallyRes cb, .cFinallyRej cb⟩ := rfl
  have hemp : (Callable.cFinallyRej cb).isEmptyOrNull = false := rfl
  have hset : ((⟨[1], [4], .kRejected, v, [⟨0, 0⟩, ⟨0, 1⟩]⟩ : PromiseHolder)).state ≠ TaskState.kPending :=
    fun hh => TaskState.noConfusion hh
  have hv5 : (c6RejC v cb).holderValue 0 = v := rfl
  have hEval := c6RejEval v cb hrb
  have hsps6 : (c6RejD v cb).sps 6 = some ⟨5⟩ := rfl
  have hD5 : (c6RejD v cb).holders 5 =
      some ⟨[6], [], .kRejected, v, [⟨0, 4⟩, ⟨0, 5⟩]⟩ := rfl
  have hD0 : (c6RejD v cb).holders 0 =
      some ⟨[1], [], .kPending, v, [⟨0, 0⟩, ⟨0, 1⟩, ⟨0, 2⟩, ⟨0, 3⟩]⟩ := rfl
  have hDs1 : (c6RejD v cb).sps 1 = some ⟨0⟩ := rfl
  have hDt4 : (c6RejD v cb).tasks 4 =
      some ⟨.kRejected, 0, 0, .cFinallyRes cb, .cFinallyRej cb⟩ := rfl
  obtain ⟨hj1, hj2, hj3⟩ := joinM_reads (c6RejD v cb) 5 0 1 _ _ ⟨0⟩
    (by decide) hD5 hD0 rfl hDs1
  have hjt4 : (joinM (c6RejD v cb) 5 0).tasks 4 =
      some ⟨.kRejected, 0, 0, .cFinallyRes cb, .cFinallyRej cb⟩ := by
    rw [hj3]
    exact hDt4
  have hq5 : ((joinM (c6RejD v cb) 5 0).setTask 4
      (⟨.kRejected, 0, 0, .cEmpty, .cEmpty⟩ : Task)).holderTasks 5 = [] :=
    holderTasks_of_some _ _ _
      ((congrFun (setTask_holders (joinM (c6RejD v cb) 5 0) 4
        ⟨.kRejected, 0, 0, .cEmpty, .cEmpty⟩) 5).trans hj2)
  have hne : (TaskState.kRejected = TaskState.kResolved) = False :=
    eq_false (fun hh => TaskState.noConfusion hh)
  show engine (5+1) (c6RejB v cb) (.reqCall 0 4) = _
  rw [engine_call_open 5 (c6RejB v cb) (c6RejB4 v cb) (c6RejC v cb) 0 4 0
    _ _ [] htk rfl rfl hph rfl hset rfl rfl]
  simp only [hne, hemp, Bool.false_eq_true, if_false, reduceIte, hv5, hEval]
  simp only [settleOrJoin, hsps6]
  simp only [hjt4, hq5]

/-- Reading the original handle (SharedPromise 1) through the join with
which a `finally` run ends: it designates the fresh holder 5 and reports
its settlement. -/
theorem joinSetReads (WD : World) (tkx : Task) (phl phr : PromiseHolder)
    (hD5 : WD.holders 5 = some phl) (hD0 : WD.holders 0 = some phr)
    (ho : phr.owners = [1]) (hDs1 : WD.sps 1 = some ⟨0⟩)
    (hql : phl.pendingTasks = []) (hqr : phr.pendingTasks = []) :
    ((joinM WD 5 0).setTask 4 tkx).spState 1 = phl.state ∧
    ((joinM WD 5 0).setTask 4 tkx).spValue 1 = phl.value ∧
    ((joinM WD 5 0).setTask 4 tkx).spTasks 1 = [] := by
  obtain ⟨hj1, hj2, hj3⟩ := joinM_reads WD 5 0 1 phl phr ⟨0⟩ (by decide) hD5 hD0 ho hDs1
  have hsps : ((joinM WD 5 0).setTask 4 tkx).sps 1 = some ⟨5⟩ :=
    (congrFun (setTask_sps _ _ _) 1).trans hj1
  have hold : ((joinM WD 5 0).setTask 4 tkx).holders 5 = some { phl with
      owners := phl.owners ++ [1]
      pendingTasks := phl.pendingTasks ++ phr.pendingTasks
      callStack := phr.callStack ++ phl.callStack } :=
    (congrFun (setTask_holders _ _ _) 5).trans hj2
  refine ⟨?_, ?_, ?_⟩
  · rw [spState_of_sp _ 1 ⟨5⟩ hsps]
    rw [holderState_of_some _ _ _ hold]
  · rw [spValue_of_sp _ 1 ⟨5⟩ hsps]
    rw [holderValue_of_some _ _ _ hold]
  · rw [spTasks_of_sp _ 1 ⟨5⟩ hsps]
    rw [holderTasks_of_some _ _ _ hold]
    rw [hql, hqr]
    rfl

theorem c6ResSide (v : AnyVal) (cb : CbBeh)
    (hrb : (match cb with
            | CbBeh.cbThrow e => RunBeh.rb_throw e
            | _ => RunBeh.rb_resolve v) = RunBeh.rb_resolve v) :
    (finallyResW v cb).spState 1 = TaskState.kResolved ∧
    (finallyResW v cb).spValue 1 = v ∧
    (finallyResW v cb).spTasks 1 = [] := by
  have hL : finallyResW v cb = (joinM (c6ResD v cb) 5 0).setTask 4
      ⟨.kResolved, 0, 0, .cEmpty, .cEmpty⟩ := by
    rw [c6ResL1 v cb, c6ResL2 v cb hrb]
  rw [hL]
  exact joinSetReads (c6ResD v cb) _ _ _ rfl rfl rfl rfl rfl rfl

theorem c6RejSide (v : AnyVal) (cb : CbBeh)
    (hrb : (match cb with
            | CbBeh.cbThrow e => RunBeh.rb_throw e
            | _ => RunBeh.rb_reject v) = RunBeh.rb_reject v) :
    (finallyRejW v cb).spState 1 = TaskState.kRejected ∧
    (finallyRejW v cb).spValue 1 = v ∧
    (finallyRejW v cb).spTasks 1 = [] := by
  have hL : finallyRejW v cb = (joinM (c6RejD v cb) 5 0).setTask 4
      ⟨.kRejected, 0, 0, .cEmpty, .cEmpty⟩ := by
    rw [c6RejL1 v cb, c6RejL2 v cb hrb]
  rw [hL]
  exact joinSetReads (c6RejD v cb) _ _ _ rfl rfl rfl rfl rfl rfl

/-- C6: `finally(cb)` preserves both the state and the value of the upstream
settlement as read through the original handle (SharedPromise 1, retargeted
by the join to the fresh promise the finally closure returns), both when
`cb` returns normally and when it raises a type-mismatch, on the Resolved
and on the Rejected side alike. -/
theorem c6_finally_preserves (v : AnyVal) (cb : CbBeh)
    (hcb : cb = CbBeh.cbOk ∨ cb = CbBeh.cbBadCast) :
    ((finallyResW v cb).spState 1 = TaskState.kResolved ∧
     (finallyResW v cb).spValue 1 = v ∧
     (finallyResW v cb).spTasks 1 = []) ∧
    ((finallyRejW v cb).spState 1 = TaskState.kRejected ∧
     (finallyRejW v cb).spValue 1 = v ∧
     (finallyRejW v cb).spTasks 1 = []) := by
  rcases hcb with h | h <;> subst h <;>
    exact ⟨c6ResSide v _ rfl, c6RejSide v _ rfl⟩

/-- Witness for C6 at the concrete value 5 with a callback that raises the
type-mismatch (which `finally` swallows). -/
theorem c6_finally_preserves_witness :
    ((finallyResW (.vInt 5) .cbBadCast).spState 1 = TaskState.kResolved ∧
     (finallyResW (.vInt 5) .cbBadCast).spValue 1 = .vInt 5 ∧
     (finallyResW (.vInt 5) .cbBadCast).spTasks 1 = []) ∧
    ((finallyRejW (.vInt 5) .cbBadCast).spState 1 = TaskState.kRejected ∧
     (finallyRejW (.vInt 5) .cbBadCast).spValue 1 = .vInt 5 ∧
     (finallyRejW (.vInt 5) .cbBadCast).spTasks 1 = []) :=
  c6_finally_preserves (.vInt 5) .cbBadCast (Or.inr rfl)

theorem afterPop_holders (W : World) (loc t hid : Nat) (tk : Task) (ph : PromiseHolder)
    (hph : W.holders hid = some ph) :
    (afterPop W loc t hid tk ph).holders hid = some
      { ph with
        pendingTasks := ph.pendingTasks.tail
        callStack := trimStack (ph.callStack ++ [⟨loc, W.serial⟩, ⟨tk.loc, W.serial + 1⟩]) } := by
  simp only [afterPop]
  rw [setTask_holders, modifyHolder_serial]
  rw [modifyHolder_holders_same _ _ _ _
    (show ({ W.modifyHolder hid (fun h => { h with pendingTasks := h.pendingTasks.tail }) with
        serial := W.serial + 2 }).holders hid =
      some { ph with pendingTasks := ph.pendingTasks.tail } from
      modifyHolder_holders_same _ _ _ _ hph)]

theorem afterPop_tasks_ne (W : World) (loc t hid u : Nat) (tk : Task) (ph : PromiseHolder)
    (hu : u ≠ t) : (afterPop W loc t hid tk ph).tasks u = W.tasks u := by
  simp only [afterPop]
  rw [setTask_tasks_ne _ _ _ _ hu, modifyHolder_tasks]
  exact congrFun (modifyHolder_tasks W hid _) u

theorem afterPop_tasks_self (W : World) (loc t hid : Nat) (tk : Task) (ph : PromiseHolder) :
    (afterPop W loc t hid tk ph).tasks t = some { tk with state := ph.state } := by
  simp only [afterPop]
  exact setTask_tasks_same _ _ _

theorem midPend_holders (W : World) (loc t hid : Nat) (tk : Task) (ph : PromiseHolder)
    (hph : W.holders hid = some ph) :
    (midPend W loc t hid tk ph).holders hid = some
      { ph with
        pendingTasks := ph.pendingTasks.tail
        state := .kPending
        callStack := trimStack (ph.callStack ++ [⟨loc, W.serial⟩, ⟨tk.loc, W.serial + 1⟩]) } := by
  unfold midPend
  rw [modifyHolder_holders_same _ _ _ _ (afterPop_holders W loc t hid tk ph hph)]

theorem midPend_tasks (W : World) (loc t hid : Nat) (tk : Task) (ph : PromiseHolder) :
    (midPend W loc t hid tk ph).tasks = (afterPop W loc t hid tk ph).tasks :=
  modifyHolder_tasks _ _ _

theorem midPend_value (W : World) (loc t hid : Nat) (tk : Task) (ph : PromiseHolder)
    (hph : W.holders hid = some ph) :
    (midPend W loc t hid tk ph).holderValue hid = ph.value := by
  rw [holderValue_of_some _ _ _ (midPend_holders W loc t hid tk ph hph)]

theorem holderTasks_setTask (X : World) (i j : Nat) (tt : Task) :
    (X.setTask i tt).holderTasks j = X.holderTasks j := by
  unfold World.holderTasks
  rw [setTask_holders]

theorem holderTasks_modify_of (X : World) (i j : Nat) (g : PromiseHolder → PromiseHolder)
    (hg : ∀ h, (g h).pendingTasks = h.pendingTasks) :
    (X.modifyHolder i g).holderTasks j = X.holderTasks j := by
  by_cases hj : j = i
  · subst hj
    cases hX : X.holders j with
    | none =>
      rw [modifyHolder_of_none _ _ _ hX]
    | some h =>
      unfold World.holderTasks
      rw [modifyHolder_holders_same _ _ _ _ hX, hX]
      exact hg h
  · unfold World.holderTasks
    rw [modifyHolder_holders_ne _ _ _ _ hj]

theorem holderTasks_modify_sv (X : World) (i j : Nat) (v : AnyVal) (s : TaskState) :
    (X.modifyHolder i (fun h => { h with value := v, state := s })).holderTasks j =
      X.holderTasks j :=
  holderTasks_modify_of X i j _ (fun h => rfl)

theorem holderTasks_modify_s (X : World) (i j : Nat) (s : TaskState) :
    (X.modifyHolder i (fun h => { h with state := s })).holderTasks j = X.holderTasks j :=
  holderTasks_modify_of X i j _ (fun h => rfl)

theorem afterPop_holderTasks (W : World) (loc t hid : Nat) (tk : Task) (ph : PromiseHolder)
    (hph : W.holders hid = some ph) :
    (afterPop W loc t hid tk ph).holderTasks hid = ph.pendingTasks.tail :=
  holderTasks_of_some _ _ _ (afterPop_holders W loc t hid tk ph hph)

theorem midPend_holderTasks (W : World) (loc t hid : Nat) (tk : Task) (ph : PromiseHolder)
    (hph : W.holders hid = some ph) :
    (midPend W loc t hid tk ph).holderTasks hid = ph.pendingTasks.tail :=
  holderTasks_of_some _ _ _ (midPend_holders W loc t hid tk ph hph)

theorem emptyOrNull_null : Callable.cNullPtr.isEmptyOrNull = true := rfl
theorem emptyOrNull_ident : Callable.cIdent.isEmptyOrNull = false := rfl
theorem emptyOrNull_const (w : AnyVal) : (Callable.cConst w).isEmptyOrNull = false := rfl
theorem emptyOrNull_badcast : Callable.cBadCast.isEmptyOrNull = false := rfl
theorem emptyOrNull_throw (e : AnyVal) : (Callable.cThrow e).isEmptyOrNull = false := rfl

theorem rej_ne_res : (TaskState.kRejected = TaskState.kResolved) = False :=
  eq_false (fun hh => TaskState.noConfusion hh)

/-- The configuration of the remaining queue after a pass-through run. -/
theorem passCfg (W : World) (loc t hid : Nat) (tk : Task) (ph : PromiseHolder)
    (ts : List Nat) (cc : Task)
    (hph : W.holders hid = some ph) (hq : ph.pendingTasks = t :: ts)
    (hnd : (t :: ts).Nodup)
    (htks : ∀ u ∈ t :: ts, ∃ tku, W.tasks u = some tku ∧ tku.promiseHolder = hid ∧
      tku.state = .kPending ∧ plainCb tku.onResolved ∧ plainCb tku.onRejected)
    (hset : ph.state ≠ .kPending) (hvp : ph.value.isPromise = false) :
    PlainCfg ((afterPop W loc t hid tk ph).setTask t cc) hid ts := by
  have hndt : t ∉ ts := (List.nodup_cons.mp hnd).1
  refine ⟨⟨_, (congrFun (setTask_holders _ _ _) hid).trans
      (afterPop_holders W loc t hid tk ph hph), hset, hvp, ?_⟩,
    (List.nodup_cons.mp hnd).2, ?_⟩
  · show ph.pendingTasks.tail = ts
    rw [hq]
    rfl
  · intro u hu
    have hut : u ≠ t := fun heq => hndt (heq ▸ hu)
    obtain ⟨tku, htku, a, b, c, d⟩ := htks u (List.mem_cons_of_mem _ hu)
    refine ⟨tku, ?_, a, b, c, d⟩
    rw [setTask_tasks_ne _ _ _ _ hut, afterPop_tasks_ne W loc t hid u tk ph hut]
    exact htku

/-- The configuration of the remaining queue after the holder re-settles on a
plain continuation's outcome (`g` is the engine's settle update). -/
theorem settleCfg (W : World) (loc t hid : Nat) (tk : Task) (ph : PromiseHolder)
    (ts : List Nat) (g : PromiseHolder → PromiseHolder) (cc : Task)
    (hph : W.holders hid = some ph) (hq : ph.pendingTasks = t :: ts)
    (hnd : (t :: ts).Nodup)
    (htks : ∀ u ∈ t :: ts, ∃ tku, W.tasks u = some tku ∧ tku.promiseHolder = hid ∧
      tku.state = .kPending ∧ plainCb tku.onResolved ∧ plainCb tku.onRejected)
    (hgs : ∀ h, (g h).state ≠ .kPending)
    (hgq : ∀ h, (g h).pendingTasks = h.pendingTasks)
    (hgv : (g { ph with
        pendingTasks := ph.pendingTasks.tail
        state := .kPending
        callStack := trimStack (ph.callStack ++
          [⟨loc, W.serial⟩, ⟨tk.loc, W.serial + 1⟩]) }).value.isPromise = false) :
    PlainCfg (((midPend W loc t hid tk ph).modifyHolder hid g).setTask t cc) hid ts := by
  have hndt : t ∉ ts := (List.nodup_cons.mp hnd).1
  refine ⟨⟨_, (congrFun (setTask_holders _ _ _) hid).trans
      (modifyHolder_holders_same _ _ _ _ (midPend_holders W loc t hid tk ph hph)),
    hgs _, hgv, ?_⟩, (List.nodup_cons.mp hnd).2, ?_⟩
  · show (g _).pendingTasks = ts
    rw [hgq]
    show ph.pendingTasks.tail = ts
    rw [hq]
    rfl
  · intro u hu
    have hut : u ≠ t := fun heq => hndt (heq ▸ hu)
    obtain ⟨tku, htku, a, b, c, d⟩ := htks u (List.mem_cons_of_mem _ hu)
    refine ⟨tku, ?_, a, b, c, d⟩
    rw [setTask_tasks_ne _ _ _ _ hut, congrFun (modifyHolder_tasks _ _ _) u,
      congrFun (midPend_tasks W loc t hid tk ph) u,
      afterPop_tasks_ne W loc t hid u tk ph hut]
    exact htku

theorem contTrace_eq (f : Nat) (W : World) (loc t : Nat) (ts : List Nat) :
    contTrace f W loc t ts =
      (match ts with
       | [] => (W, EngineOut.outTrace [t])
       | t2 :: _ =>
         ((engine f W (.reqCall loc t2)).1,
           .outTrace (t :: (match (engine f W (.reqCall loc t2)).2 with
             | .outTrace tr => tr
             | _ => [])))) := by
  cases ts <;> rfl

/-- One plain engine step: under a `PlainCfg` with front task `t`, the engine
pops and runs `t`, re-settles the holder, and continues with the rest of the
queue in a world that again satisfies `PlainCfg`. -/
theorem plain_step (f : Nat) (W : World) (hid loc t : Nat) (ts : List Nat)
    (hcfg : PlainCfg W hid (t :: ts)) :
    ∃ W', PlainCfg W' hid ts ∧
      engine (f+1) W (.reqCall loc t) = contTrace f W' loc t ts := by
  obtain ⟨⟨ph, hph, hset, hvp, hq⟩, hnd, htks⟩ := hcfg
  obtain ⟨tk, htk, hhid, htst, hpr, hpj⟩ := htks t (List.mem_cons_self t ts)
  have hdisj : ph.state = .kResolved ∨ ph.state = .kRejected := by
    cases hx : ph.state
    · exact absurd hx hset
    · exact Or.inl rfl
    · exact Or.inr rfl
  rcases hdisj with hstate | hstate
  · rcases hpr with hc | hc | hc | hc | ⟨w, hc, hw⟩ | ⟨e, hc⟩
    · refine ⟨(afterPop W loc t hid tk ph).setTask t
        { tk with state := .kResolved, onResolved := .cEmpty, onRejected := .cEmpty },
        passCfg W loc t hid tk ph ts _ hph hq hnd htks hset hvp, ?_⟩
      rw [engine_call_open f W (afterPop W loc t hid tk ph) (midPend W loc t hid tk ph)
        loc t hid tk ph ts htk hhid htst hph hq hset rfl rfl]
      simp only [hstate, hc, hET, reduceIte, afterPop_tasks_self, holderTasks_setTask,
        afterPop_holderTasks W loc t hid tk ph hph, hq, List.tail_cons, contTrace_eq]
    · refine ⟨(afterPop W loc t hid tk ph).setTask t
        { tk with state := .kResolved, onResolved := .cEmpty, onRejected := .cEmpty },
        passCfg W loc t hid tk ph ts _ hph hq hnd htks hset hvp, ?_⟩
      rw [engine_call_open f W (afterPop W loc t hid tk ph) (midPend W loc t hid tk ph)
        loc t hid tk ph ts htk hhid htst hph hq hset rfl rfl]
      simp only [hstate, hc, emptyOrNull_null, reduceIte, afterPop_tasks_self,
        holderTasks_setTask, afterPop_holderTasks W loc t hid tk ph hph, hq, List.tail_cons, contTrace_eq]
    · refine ⟨((midPend W loc t hid tk ph).modifyHolder hid
          (fun h => { h with value := ph.value, state := .kResolved })).setTask t
        { tk with state := .kResolved, onResolved := .cEmpty, onRejected := .cEmpty },
        settleCfg W loc t hid tk ph ts _ _ hph hq hnd htks
          (fun h hh => TaskState.noConfusion hh) (fun h => rfl) hvp, ?_⟩
      rw [engine_call_open f W (afterPop W loc t hid tk ph) (midPend W loc t hid tk ph)
        loc t hid tk ph ts htk hhid htst hph hq hset rfl rfl]
      simp only [hstate, hc, emptyOrNull_ident, Bool.false_eq_true, if_false, reduceIte,
        midPend_value W loc t hid tk ph hph,
        engine_eval_basic f (midPend W loc t hid tk ph) .cIdent ph.value loc rfl,
        evalCbBase, settleOrJoin_nonpromise (midPend W loc t hid tk ph) hid ph.value hvp,
        modifyHolder_tasks, midPend_tasks, afterPop_tasks_self, holderTasks_setTask,
        holderTasks_modify_sv, midPend_holderTasks W loc t hid tk ph hph, hq, List.tail_cons, contTrace_eq]
    · refine ⟨((midPend W loc t hid tk ph).modifyHolder hid
          (fun h => { h with value := .vExc true .vEmpty, state := .kRejected })).setTask t
        { tk with state := .kResolved, onResolved := .cEmpty, onRejected := .cEmpty },
        settleCfg W loc t hid tk ph ts _ _ hph hq hnd htks
          (fun h hh => TaskState.noConfusion hh) (fun h => rfl) rfl, ?_⟩
      rw [engine_call_open f W (afterPop W loc t hid tk ph) (midPend W loc t hid tk ph)
        loc t hid tk ph ts htk hhid htst hph hq hset rfl rfl]
      simp only [hstate, hc, emptyOrNull_badcast, Bool.false_eq_true, if_false, reduceIte,
        midPend_value W loc t hid tk ph hph,
        engine_eval_basic f (midPend W loc t hid tk ph) .cBadCast ph.value loc rfl,
        evalCbBase,
        modifyHolder_tasks, midPend_tasks, afterPop_tasks_self, holderTasks_setTask,
        holderTasks_modify_sv, midPend_holderTasks W loc t hid tk ph hph, hq, List.tail_cons, contTrace_eq]
    · refine ⟨((midPend W loc t hid tk ph).modifyHolder hid
          (fun h => { h with value := w, state := .kResolved })).setTask t
        { tk with state := .kResolved, onResolved := .cEmpty, onRejected := .cEmpty },
        settleCfg W loc t hid tk ph ts _ _ hph hq hnd htks
          (fun h hh => TaskState.noConfusion hh) (fun h => rfl) hw, ?_⟩
      rw [engine_call_open f W (afterPop W loc t hid tk ph) (midPend W loc t hid tk ph)
        loc t hid tk ph ts htk hhid htst hph hq hset rfl rfl]
      simp only [hstate, hc, emptyOrNull_const, Bool.false_eq_true, if_false, reduceIte,
        midPend_value W loc t hid tk ph hph,
        engine_eval_basic f (midPend W loc t hid tk ph) (.cConst w) ph.value loc rfl,
        evalCbBase, settleOrJoin_nonpromise (midPend W loc t hid tk ph) hid w hw,
        modifyHolder_tasks, midPend_tasks, afterPop_tasks_self, holderTasks_setTask,
        holderTasks_modify_sv, midPend_holderTasks W loc t hid tk ph hph, hq, List.tail_cons, contTrace_eq]
    · refine ⟨((midPend W loc t hid tk ph).modifyHolder hid
          (fun h => { h with value := .vExc false e, state := .kRejected })).setTask t
        { tk with state := .kResolved, onResolved := .cEmpty, onRejected := .cEmpty },
        settleCfg W loc t hid tk ph ts _ _ hph hq hnd htks
          (fun h hh => TaskState.noConfusion hh) (fun h => rfl) rfl, ?_⟩
      rw [engine_call_open f W (afterPop W loc t hid tk ph) (midPend W loc t hid tk ph)
        loc t hid tk ph ts htk hhid htst hph hq hset rfl rfl]
      simp only [hstate, hc, emptyOrNull_throw, Bool.false_eq_true, if_false, reduceIte,
        midPend_value W loc t hid tk ph hph,
        engine_eval_basic f (midPend W loc t hid tk ph) (.cThrow e) ph.value loc rfl,
        evalCbBase,
        modifyHolder_tasks, midPend_tasks, afterPop_tasks_self, holderTasks_setTask,
        holderTasks_modify_sv, midPend_holderTasks W loc t hid tk ph hph, hq, List.tail_cons, contTrace_eq]
  · rcases hpj with hc | hc | hc | hc | ⟨w, hc, hw⟩ | ⟨e, hc⟩
    · refine ⟨(afterPop W loc t hid tk ph).setTask t
        { tk with state := .kRejected, onResolved := .cEmpty, onRejected := .cEmpty },
        passCfg W loc t hid tk ph ts _ hph hq hnd htks hset hvp, ?_⟩
      rw [engine_call_open f W (afterPop W loc t hid tk ph) (midPend W loc t hid tk ph)
        loc t hid tk ph ts htk hhid htst hph hq hset rfl rfl]
      simp only [hstate, rej_ne_res, if_false, hc, hET, reduceIte, afterPop_tasks_self,
        holderTasks_setTask, afterPop_holderTasks W loc t hid tk ph hph, hq, List.tail_cons, contTrace_eq]
    · refine ⟨(afterPop W loc t hid tk ph).setTask t
        { tk with state := .kRejected, onResolved := .cEmpty, onRejected := .cEmpty },
        passCfg W loc t hid tk ph ts _ hph hq hnd htks hset hvp, ?_⟩
      rw [engine_call_open f W (afterPop W loc t hid tk ph) (midPend W loc t hid tk ph)
        loc t hid tk ph ts htk hhid htst hph hq hset rfl rfl]
      simp only [hstate, rej_ne_res, if_false, hc, emptyOrNull_null, reduceIte,
        afterPop_tasks_self, holderTasks_setTask,
        afterPop_holderTasks W loc t hid tk ph hph, hq, List.tail_cons, contTrace_eq]
    · refine ⟨((midPend W loc t hid tk ph).modifyHolder hid
          (fun h => { h with value := ph.value, state := .kResolved })).setTask t
        { tk with state := .kRejected, onResolved := .cEmpty, onRejected := .cEmpty },
        settleCfg W loc t hid tk ph ts _ _ hph hq hnd htks
          (fun h hh => TaskState.noConfusion hh) (fun h => rfl) hvp, ?_⟩
      rw [engine_call_open f W (afterPop W loc t hid tk ph) (midPend W loc t hid tk ph)
        loc t hid tk ph ts htk hhid htst hph hq hset rfl rfl]
      simp only [hstate, rej_ne_res, if_false, hc, emptyOrNull_ident, Bool.false_eq_true,
        reduceIte, midPend_value W loc t hid tk ph hph,
        engine_eval_basic f (midPend W loc t hid tk ph) .cIdent ph.value loc rfl,
        evalCbBase, settleOrJoin_nonpromise (midPend W loc t hid tk ph) hid ph.value hvp,
        modifyHolder_tasks, midPend_tasks, afterPop_tasks_self, holderTasks_setTask,
        holderTasks_modify_sv, midPend_holderTasks W loc t hid tk ph hph, hq, List.tail_cons, contTrace_eq]
    · refine ⟨((midPend W loc t hid tk ph).modifyHolder hid
          (fun h => { h with state := .kRejected })).setTask t
        { tk with state := .kRejected, onResolved := .cEmpty, onRejected := .cEmpty },
        settleCfg W loc t hid tk ph ts _ _ hph hq hnd htks
          (fun h hh => TaskState.noConfusion hh) (fun h => rfl) hvp, ?_⟩
      rw [engine_call_open f W (afterPop W loc t hid tk ph) (midPend W loc t hid tk ph)
        loc t hid tk ph ts htk hhid htst hph hq hset rfl rfl]
      simp only [hstate, rej_ne_res, if_false, hc, emptyOrNull_badcast, Bool.false_eq_true,
        reduceIte, midPend_value W loc t hid tk ph hph,
        engine_eval_basic f (midPend W loc t hid tk ph) .cBadCast ph.value loc rfl,
        evalCbBase,
        modifyHolder_tasks, midPend_tasks, afterPop_tasks_self, holderTasks_setTask,
        holderTasks_modify_s, midPend_holderTasks W loc t hid tk ph hph, hq, List.tail_cons, contTrace_eq]
    · refine ⟨((midPend W loc t hid tk ph).modifyHolder hid
          (fun h => { h with value := w, state := .kResolved })).setTask t
        { tk with state := .kRejected, onResolved := .cEmpty, onRejected := .cEmpty },
        settleCfg W loc t hid tk ph ts _ _ hph hq hnd htks
          (fun h hh => TaskState.noConfusion hh) (fun h => rfl) hw, ?_⟩
      rw [engine_call_open f W (afterPop W loc t hid tk ph) (midPend W loc t hid tk ph)
        loc t hid tk ph ts htk hhid htst hph hq hset rfl rfl]
      simp only [hstate, rej_ne_res, if_false, hc, emptyOrNull_const, Bool.false_eq_true,
        reduceIte, midPend_value W loc t hid tk ph hph,
        engine_eval_basic f (midPend W loc t hid tk ph) (.cConst w) ph.value loc rfl,
        evalCbBase, settleOrJoin_nonpromise (midPend W loc t hid tk ph) hid w hw,
        modifyHolder_tasks, midPend_tasks, afterPop_tasks_self, holderTasks_setTask,
        holderTasks_modify_sv, midPend_holderTasks W loc t hid tk ph hph, hq, List.tail_cons, contTrace_eq]
    · refine ⟨((midPend W loc t hid tk ph).modifyHolder hid
          (fun h => { h with value := .vExc false e, state := .kRejected })).setTask t
        { tk with state := .kRejected, onResolved := .cEmpty, onRejected := .cEmpty },
        settleCfg W loc t hid tk ph ts _ _ hph hq hnd htks
          (fun h hh => TaskState.noConfusion hh) (fun h => rfl) rfl, ?_⟩
      rw [engine_call_open f W (afterPop W loc t hid tk ph) (midPend W loc t hid tk ph)
        loc t hid tk ph ts htk hhid htst hph hq hset rfl rfl]
      simp only [hstate, rej_ne_res, if_false, hc, emptyOrNull_throw, Bool.false_eq_true,
        reduceIte, midPend_value W loc t hid tk ph hph,
        engine_eval_basic f (midPend W loc t hid tk ph) (.cThrow e) ph.value loc rfl,
        evalCbBase,
        modifyHolder_tasks, midPend_tasks, afterPop_tasks_self, holderTasks_setTask,
        holderTasks_modify_sv, midPend_holderTasks W loc t hid tk ph hph, hq, List.tail_cons, contTrace_eq]

/-- Running the engine on the front of a plain queue executes the whole
queue, front first, and leaves the holder settled with an empty queue. -/
theorem plain_run : ∀ (ts : List Nat) (f : Nat) (W : World) (hid loc t : Nat),
    PlainCfg W hid (t :: ts) → ts.length < f →
    (engine f W (.reqCall loc t)).2 = .outTrace (t :: ts) ∧
    PlainCfg (engine f W (.reqCall loc t)).1 hid [] := by
  intro ts
  induction ts with
  | nil =>
    intro f W hid loc t hcfg hf
    obtain ⟨f', rfl⟩ : ∃ f', f = f' + 1 := ⟨f - 1, by omega⟩
    obtain ⟨W', hcfg', heq⟩ := plain_step f' W hid loc t [] hcfg
    rw [heq]
    exact ⟨rfl, hcfg'⟩
  | cons t2 ts' ih =>
    intro f W hid loc t hcfg hf
    obtain ⟨f', rfl⟩ : ∃ f', f = f' + 1 := ⟨f - 1, by omega⟩
    obtain ⟨W', hcfg', heq⟩ := plain_step f' W hid loc t (t2 :: ts') hcfg
    rw [heq]
    have hf' : ts'.length < f' := by
      rw [List.length_cons] at hf
      omega
    obtain ⟨ht, hcfg2⟩ := ih f' W' hid loc t2 hcfg' hf'
    constructor
    · show EngineOut.outTrace (t :: (match (engine f' W' (.reqCall loc t2)).2 with
        | .outTrace tr => tr
        | _ => [])) = _
      rw [ht]
    · exact hcfg2

/-- In `lq ++ rq`, anything of `lq` stands strictly before anything of `rq`
that is not in `lq`. -/
theorem indexOf_append_lt (a b : Nat) : ∀ (lq rq : List Nat), a ∈ lq → b ∉ lq → b ∈ rq →
    (lq ++ rq).indexOf a < (lq ++ rq).indexOf b := by
  intro lq
  induction lq with
  | nil =>
    intro rq ha
    cases ha
  | cons x xs ih =>
    intro rq ha hb hbr
    have hbx : b ≠ x := fun heq => hb (heq ▸ List.mem_cons_self x xs)
    rw [List.cons_append, List.indexOf_cons_ne _ hbx.symm]
    by_cases hax : a = x
    · subst hax
      rw [List.indexOf_cons_self]
      omega
    · rw [List.indexOf_cons_ne _ (Ne.symm hax)]
      have hax2 : a ∈ xs := (List.mem_cons.mp ha).resolve_left hax
      have := ih rq hax2 (fun hm => hb (List.mem_cons_of_mem _ hm)) hbr
      omega

/-- The queue of `left` after `join(left, right)` is the left queue followed
by the right queue (promise_inl.hpp 144-147). -/
theorem joinM_holderTasks_left (W : World) (l r : Nat) (phl phr : PromiseHolder)
    (hlr : l ≠ r) (hl : W.holders l = some phl) (hr : W.holders r = some phr) :
    (joinM W l r).holderTasks l = phl.pendingTasks ++ phr.pendingTasks := by
  obtain ⟨h1l, h1r, h1o, h1t, h1s⟩ := joinTasks_spec W l r phl phr hlr hl hr
  obtain ⟨h2l, h2r, h2o, h2t, h2s⟩ := joinStacks_spec (joinTasks W l r) l r _ _ hlr h1l h1r
  obtain ⟨h3r, h3o, h3ow, h3t, h3s⟩ := joinShell_spec (joinStacks (joinTasks W l r) l r) r _ h2r
  rw [joinM_eq_of_live W l r (by rw [hl]; rfl) (by rw [hr]; rfl)]
  apply holderTasks_of_map
  rw [retargetOwners_map_proj PromiseHolder.pendingTasks (fun ph ow => rfl)]
  have h3l : (joinShell (joinStacks (joinTasks W l r) l r) r).1.holders l =
      some { phl with
        pendingTasks := phl.pendingTasks ++ phr.pendingTasks
        callStack := phr.callStack ++ phl.callStack } := by
    rw [h3o l hlr]
    exact h2l
  rw [h3l]
  rfl

theorem c2W_cfg : PlainCfg c2W 0 [10, 11] := by
  refine ⟨⟨⟨[], [10, 11], .kResolved, .vInt 1, []⟩, rfl,
    fun hh => TaskState.noConfusion hh, rfl, rfl⟩, by decide, ?_⟩
  intro u hu
  rcases List.mem_cons.mp hu with rfl | hu2
  · exact ⟨⟨.kPending, 0, 0, .cIdent, .cEmpty⟩, rfl, rfl, rfl,
      Or.inr (Or.inr (Or.inl rfl)), Or.inl rfl⟩
  rcases List.mem_cons.mp hu2 with rfl | hu3
  · exact ⟨⟨.kPending, 0, 0, .cConst (.vInt 2), .cEmpty⟩, rfl, rfl, rfl,
      Or.inr (Or.inr (Or.inr (Or.inr (Or.inl ⟨.vInt 2, rfl, rfl⟩)))), Or.inl rfl⟩
  cases hu3

/-- C2: (i) FIFO — running the engine on the front task of a settled holder
carrying a plain queue executes exactly that queue, front first, in
registration order; (ii) `join(left, right)` splices the right queue after
the whole left queue; (iii) hence on the spliced queue every task that came
from `right` runs strictly after every task that was already on `left`. -/
theorem c2_fifo_join :
    (∀ (W : World) (hid loc t f : Nat) (ts : List Nat),
      PlainCfg W hid (t :: ts) → ts.length < f →
      (callM f W loc t).2 = t :: ts) ∧
    (∀ (W : World) (l r : Nat) (phl phr : PromiseHolder),
      l ≠ r → W.holders l = some phl → W.holders r = some phr →
      (joinM W l r).holderTasks l = phl.pendingTasks ++ phr.pendingTasks) ∧
    (∀ (W : World) (hid loc t f : Nat) (lrest rq : List Nat),
      PlainCfg W hid (t :: (lrest ++ rq)) → (lrest ++ rq).length < f →
      (callM f W loc t).2 = (t :: lrest) ++ rq ∧
      ∀ a ∈ t :: lrest, ∀ b ∈ rq,
        ((callM f W loc t).2.indexOf a < (callM f W loc t).2.indexOf b)) := by
  have main : ∀ (W : World) (hid loc t f : Nat) (ts : List Nat),
      PlainCfg W hid (t :: ts) → ts.length < f → (callM f W loc t).2 = t :: ts := by
    intro W hid loc t f ts hcfg hf
    show (match (engine f W (.reqCall loc t)).2 with
      | .outTrace tr => tr
      | _ => []) = t :: ts
    rw [(plain_run ts f W hid loc t hcfg hf).1]
  refine ⟨main, joinM_holderTasks_left, ?_⟩
  intro W hid loc t f lrest rq hcfg hf
  have htr : (callM f W loc t).2 = t :: (lrest ++ rq) := main W hid loc t f _ hcfg hf
  refine ⟨htr, ?_⟩
  intro a ha b hb
  rw [htr]
  have hnd : (t :: (lrest ++ rq)).Nodup := hcfg.2.1
  have hdisj : (t :: lrest).Disjoint rq := by
    have h2 := (List.nodup_cons.mp hnd)
    have h3 := List.nodup_append.mp h2.2
    intro x hx hxr
    rcases List.mem_cons.mp hx with rfl | hxl
    · exact h2.1 (List.mem_append_right _ hxr)
    · exact h3.2.2 hxl hxr
  have hbl : b ∉ t :: lrest := fun hbl => hdisj hbl hb
  have := indexOf_append_lt a b (t :: lrest) rq ha hbl hb
  rw [List.cons_append] at this
  exact this

/-- Witness for C2: on the concrete two-task configuration the engine's
trace is exactly the queue, in order. -/
theorem c2_fifo_join_witness :
    (callM 2 c2W 0 10).2 = [10, 11] ∧
    ((callM 2 c2W 0 10).2 = [10] ++ [11] ∧
      ∀ a ∈ [10], ∀ b ∈ [11],
        ((callM 2 c2W 0 10).2.indexOf a < (callM 2 c2W 0 10).2.indexOf b)) :=
  ⟨c2_fifo_join.1 c2W 0 0 10 2 [11] c2W_cfg (by decide),
   c2_fifo_join.2.2 c2W 0 0 10 2 [] [11] c2W_cfg (by decide)⟩

/-- C1 amended: the holder re-settles once per task run — around every
continuation invocation the engine transiently re-sets the holder to
Pending (conjunct two, the world `midPend` in which the continuation runs),
and at the end of every complete engine run the holder is settled again
(conjunct one); uniqueness of the transition over the holder's lifetime
fails (see the counterexample). -/
theorem c1_per_run_settlement :
    (∀ (W : World) (hid loc t f : Nat) (ts : List Nat),
      PlainCfg W hid (t :: ts) → ts.length < f →
      (callM f W loc t).1.holderState hid ≠ .kPending) ∧
    (∀ (W : World) (loc t hid : Nat) (tk : Task) (ph : PromiseHolder),
      W.holders hid = some ph →
      (midPend W loc t hid tk ph).holderState hid = .kPending) := by
  constructor
  · intro W hid loc t f ts hcfg hf
    obtain ⟨ph', hph', hst', _, _⟩ := (plain_run ts f W hid loc t hcfg hf).2.1
    show (engine f W (.reqCall loc t)).1.holderState hid ≠ .kPending
    rw [holderState_of_some _ _ _ hph']
    exact hst'
  · intro W loc t hid tk ph hph
    rw [holderState_of_some _ _ _ (midPend_holders W loc t hid tk ph hph)]

/-- Witness for C1's amended statement on the concrete configuration. -/
theorem c1_per_run_settlement_witness :
    (callM 2 c2W 0 10).1.holderState 0 ≠ .kPending ∧
    (midPend c2W 0 10 0 ⟨.kPending, 0, 0, .cIdent, .cEmpty⟩
      ⟨[], [10, 11], .kResolved, .vInt 1, []⟩).holderState 0 = .kPending :=
  ⟨c1_per_run_settlement.1 c2W 0 0 10 2 [11] c2W_cfg (by decide),
   c1_per_run_settlement.2 c2W 0 10 0 ⟨.kPending, 0, 0, .cIdent, .cEmpty⟩
     ⟨[], [10, 11], .kResolved, .vInt 1, []⟩ rfl⟩

end PromiseCpp
